import Mathlib

set_option linter.unusedVariables false
set_option maxRecDepth 100000

/-!
Verification of the SimpleDB core (page-oriented B+Tree, page manager,
free-list allocator and commit pipeline) against its natural-language
specification.

The Go source is embedded shallowly: a page (or node buffer) is a
`List Nat` of byte values, mutation is explicit state passing, and code
paths that panic in Go are modelled with `Option` (`none` = panic).
Machine integers are `Nat`; where Go's `uint16` wrap-around matters the
definition applies `% 65536` explicitly.

Two points of Go semantics are preserved deliberately, because claims
hinge on them:

* `BNode.setPtr` and `BNode.setOffSet` in `btree/bnode.go` call
  `binary.LittleEndian.AppendUint64` / `AppendUint16` and discard the
  returned slice.  `append` on a slice whose length equals its capacity
  (every node buffer is created with `make([]byte, n)`) reallocates, so
  the node bytes are never modified.  These two functions are therefore
  embedded as the identity on the node's bytes.
* Assigning to a nil Go map panics.  `KeyValue.Open` never initializes
  `db.page.updates`, so the map is `none` until `syncPages` replaces it;
  `pageNew`'s store into it is modelled as a panic in that case.
-/

namespace SimpleDB

/-! ## Byte-level utilities -/

/-- Read byte `i` of a buffer; out-of-range reads default to 0 (the Go
code would panic there; all theorems below keep reads in range). -/
def bget (l : List Nat) (i : Nat) : Nat := l.getD i 0

/-- Write byte `i` of a buffer, truncating the value to a byte as Go's
`byte(v)` conversion does.  Out-of-range writes leave the buffer
unchanged (Go would panic; unused out of range below). -/
def bset (l : List Nat) (i : Nat) (v : Nat) : List Nat := l.set i (v % 256)

/-- Little-endian 16-bit read, as `binary.LittleEndian.Uint16`. -/
def readU16 (l : List Nat) (p : Nat) : Nat :=
  bget l p + 256 * bget l (p + 1)

/-- Little-endian 16-bit write, as `binary.LittleEndian.PutUint16`. -/
def writeU16 (l : List Nat) (p : Nat) (v : Nat) : List Nat :=
  bset (bset l p v) (p + 1) (v / 256)

/-- Little-endian 64-bit read, as `binary.LittleEndian.Uint64`. -/
def readU64 (l : List Nat) (p : Nat) : Nat :=
  bget l p + 256 * bget l (p + 1) + 256 ^ 2 * bget l (p + 2) +
    256 ^ 3 * bget l (p + 3) + 256 ^ 4 * bget l (p + 4) +
    256 ^ 5 * bget l (p + 5) + 256 ^ 6 * bget l (p + 6) +
    256 ^ 7 * bget l (p + 7)

/-- Little-endian 64-bit write, as `binary.LittleEndian.PutUint64`. -/
def writeU64 (l : List Nat) (p : Nat) (v : Nat) : List Nat :=
  bset (bset (bset (bset (bset (bset (bset (bset l
    p v) (p + 1) (v / 256 ^ 1)) (p + 2) (v / 256 ^ 2)) (p + 3) (v / 256 ^ 3))
    (p + 4) (v / 256 ^ 4)) (p + 5) (v / 256 ^ 5)) (p + 6) (v / 256 ^ 6))
    (p + 7) (v / 256 ^ 7)

/-- Overwrite `dst` from position `p` with the bytes of `s`, stopping
when either list runs out (Go `copy` truncates to the shorter slice). -/
def splice : List Nat → Nat → List Nat → List Nat
  | [], _, _ => []
  | d :: ds, 0, [] => d :: ds
  | _ :: ds, 0, s :: ss => s :: splice ds 0 ss
  | d :: ds, p + 1, ss => d :: splice ds p ss

/-- Go's `copy(dst[dpos:], src[spos:spos+n])`. -/
def bcopy (dst : List Nat) (dpos : Nat) (src : List Nat) (spos n : Nat) :
    List Nat :=
  splice dst dpos ((src.drop spos).take n)

/-- `bytes.Compare` on byte strings: lexicographic, -1/0/1 as `Int`. -/
def cmpBytes : List Nat → List Nat → Int
  | [], [] => 0
  | [], _ :: _ => -1
  | _ :: _, [] => 1
  | a :: as, b :: bs =>
    if a < b then -1 else if b < a then 1 else cmpBytes as bs

/-- `bytes.Equal`. -/
def bytesEq (a b : List Nat) : Bool := a == b

/-- Go uint16 subtraction with wrap-around, for operands below 2^16. -/
def u16sub (a b : Nat) : Nat := (a + 65536 - b % 65536) % 65536

/-! ## Node codec (`src/btree/bnode.go`)

A `BNode` is the byte buffer `node.data`.  Layout per the source:
type 2B | nkeys 2B | pointers 8B each | offsets 2B each | packed KVs. -/

def BNODE_NODE : Nat := 1
def BNODE_LEAF : Nat := 2
def HEADER : Nat := 4
def BTREE_PAGE_SIZE : Nat := 4096
def BTREE_MAX_KEY_SIZE : Nat := 1000
def BTREE_MAX_VAL_SIZE : Nat := 3000

/-- `BNode.btype`. -/
def btype (node : List Nat) : Nat := readU16 node 0

/-- `BNode.nkeys`. -/
def nkeysOf (node : List Nat) : Nat := readU16 node 2

/-- `BNode.setHeader`. -/
def setHeader (node : List Nat) (t k : Nat) : List Nat :=
  writeU16 (writeU16 node 0 t) 2 k

/-- `BNode.getPtr` (the Go guard `idx < nkeys` is kept in range by every
theorem below). -/
def getPtr (node : List Nat) (idx : Nat) : Nat :=
  readU64 node (HEADER + 8 * idx)

/-- `BNode.setPtr`: the source discards the result of
`binary.LittleEndian.AppendUint64(node.data[pos:], val)`, so the node
bytes are unchanged. -/
def setPtr (node : List Nat) (idx v : Nat) : List Nat := node

/-- `offsetPos` (only ever called with `1 ≤ idx ≤ nkeys`). -/
def offsetPos (node : List Nat) (idx : Nat) : Nat :=
  HEADER + 8 * nkeysOf node + 2 * (idx - 1)

/-- `BNode.getOffSet`. -/
def getOffSet (node : List Nat) (idx : Nat) : Nat :=
  if idx = 0 then 0 else readU16 node (offsetPos node idx)

/-- `BNode.setOffSet`: the source discards the result of
`binary.LittleEndian.AppendUint16(node.data[offsetPos(node, idx):], offset)`,
so the node bytes are unchanged. -/
def setOffSet (node : List Nat) (idx off : Nat) : List Nat := node

/-- `BNode.kvPos`. -/
def kvPos (node : List Nat) (idx : Nat) : Nat :=
  HEADER + 8 * nkeysOf node + 2 * nkeysOf node + getOffSet node idx

/-- `BNode.getKey`: `node.data[pos+4:][:klen]`. -/
def getKey (node : List Nat) (idx : Nat) : List Nat :=
  (node.drop (kvPos node idx + 4)).take (readU16 node (kvPos node idx))

/-- `BNode.getVal`: `node.data[pos+4+klen:][:vlen]`. -/
def getVal (node : List Nat) (idx : Nat) : List Nat :=
  (node.drop (kvPos node idx + 4 + readU16 node (kvPos node idx))).take
    (readU16 node (kvPos node idx + 2))

/-- `BNode.nbytes`. -/
def nbytes (node : List Nat) : Nat := kvPos node (nkeysOf node)

/-- Loop body of `nodeLookupLE`: iterate `i` from 1, remembering the
last index whose key compares `<= key`, breaking as soon as the
comparison is `>= 0`. -/
def nodeLookupLEAux (node : List Nat) (key : List Nat) :
    Nat → Nat → Nat → Nat
  | 0, _, found => found
  | fuel + 1, i, found =>
    if i < nkeysOf node then
      let c := cmpBytes (getKey node i) key
      let found2 := if c ≤ 0 then i else found
      if 0 ≤ c then found2
      else nodeLookupLEAux node key fuel (i + 1) found2
    else found

/-- `nodeLookupLE`. -/
def nodeLookupLE (node : List Nat) (key : List Nat) : Nat :=
  nodeLookupLEAux node key (nkeysOf node) 1 0

/-- `nodeAppendKV`: writes the pointer (a no-op, see `setPtr`), then
`klen | vlen | key | val` at `kvPos(idx)`, then the next offset
(a no-op, see `setOffSet`). -/
def nodeAppendKV (nd : List Nat) (idx ptr : Nat) (key val : List Nat) :
    List Nat :=
  let nd1 := setPtr nd idx ptr
  let pos := kvPos nd1 idx
  let nd2 := writeU16 nd1 pos key.length
  let nd3 := writeU16 nd2 (pos + 2) val.length
  let nd4 := bcopy nd3 (pos + 4) key 0 key.length
  let nd5 := bcopy nd4 (pos + 4 + key.length) val 0 val.length
  setOffSet nd5 (idx + 1) (getOffSet nd5 idx + 4 + (key.length + val.length))

/-- `nodeAppendRange`.  The two explicit bounds checks panic in Go
(`none` here).  The pointer and offset loops call `setPtr` / `setOffSet`
(identity on the bytes; iterated faithfully), then the KV byte region
`old.data[old.kvPos(srcOld) : old.kvPos(srcOld+n)]` is bulk-copied to
`new.data[new.kvPos(dstNew):]`.  (Go would additionally panic if a
slice bound exceeded a buffer; every use below stays in range.) -/
def nodeAppendRange (nw old : List Nat) (dstNew srcOld n : Nat) :
    Option (List Nat) :=
  if srcOld + n > nkeysOf old then none
  else if dstNew + n > nkeysOf nw then none
  else if n = 0 then some nw
  else
    let nw1 := (List.range n).foldl
      (fun acc i => setPtr acc (dstNew + i) (getPtr old (srcOld + i))) nw
    let dstBegin := getOffSet nw1 dstNew
    let srcBegin := getOffSet old srcOld
    let nw2 := (List.range n).foldl
      (fun acc i =>
        setOffSet acc (dstNew + (i + 1))
          ((dstBegin + getOffSet old (srcOld + (i + 1)) + 65536 -
            srcBegin % 65536) % 65536)) nw1
    let bg := kvPos old srcOld
    let en := kvPos old (srcOld + n)
    some (bcopy nw2 (kvPos nw2 dstNew) old bg (en - bg))

/-- `leafInsert`. -/
def leafInsert (nw old : List Nat) (idx : Nat) (key val : List Nat) :
    Option (List Nat) := do
  let nw := setHeader nw BNODE_LEAF (nkeysOf old + 1)
  let nw ← nodeAppendRange nw old 0 0 idx
  let nw := nodeAppendKV nw idx 0 key val
  nodeAppendRange nw old (idx + 1) idx (nkeysOf old - idx)

/-- `leafUpdate`. -/
def leafUpdate (nw old : List Nat) (idx : Nat) (key val : List Nat) :
    Option (List Nat) := do
  let nw := setHeader nw BNODE_LEAF (nkeysOf old)
  let nw ← nodeAppendRange nw old 0 0 idx
  let nw := nodeAppendKV nw idx 0 key val
  nodeAppendRange nw old (idx + 1) (idx + 1) (nkeysOf old - idx - 1)

/-- `leafDelete`.  The trailing range is copied with count
`old.nkeys() - idx + 1`, exactly as in the source. -/
def leafDelete (nw old : List Nat) (idx : Nat) : Option (List Nat) := do
  let nw := setHeader nw BNODE_LEAF (nkeysOf old - 1)
  let nw ← nodeAppendRange nw old 0 0 idx
  nodeAppendRange nw old idx (idx + 1) (nkeysOf old - idx + 1)

/-- `nodeMerge`. -/
def nodeMerge (nw left right : List Nat) : Option (List Nat) := do
  let nw := setHeader nw (btype left) (nkeysOf left + nkeysOf right)
  let nw ← nodeAppendRange nw left 0 0 (nkeysOf left)
  nodeAppendRange nw right (nkeysOf left) 0 (nkeysOf right)

/-- Loop of `splitSingleNode`: starting at slot `i` with `curBytes`
accumulated, return the break index, or 0 (the Go initial value of
`idx`) if the loop runs out.  `curBytes` adds
`8 + 2 + 2 + 2 + keyLen + valLen` per slot; the break condition is the
uint16 computation `totalBytes - uint16(curBytes) <= PAGE - 4`. -/
def splitIdxAux (old : List Nat) (totalBytes : Nat) :
    Nat → Nat → Nat → Nat
  | 0, _, _ => 0
  | fuel + 1, i, curBytes =>
    if i < nkeysOf old then
      let oldPos := kvPos old i
      let keyLen := readU16 old oldPos
      let valLen := readU16 old (oldPos + 2)
      let curBytes2 := curBytes + 8 + 2 + 2 + 2 + keyLen + valLen
      if u16sub totalBytes curBytes2 ≤ BTREE_PAGE_SIZE - 4 then i
      else splitIdxAux old totalBytes fuel (i + 1) curBytes2
    else 0

/-- `splitSingleNode`: split `old` into the supplied `left` and `right`
buffers; returns the pair. -/
def splitSingleNode (left right old : List Nat) :
    Option (List Nat × List Nat) := do
  let nkeys := nkeysOf old
  let totalBytes := nbytes old
  let idx := splitIdxAux old totalBytes nkeys 0 0
  let lf := setHeader left (btype old) idx
  let rt := setHeader right (btype old) (nkeys - idx)
  let lf ← nodeAppendRange lf old 0 0 idx
  let rt ← nodeAppendRange rt old 0 idx (nkeys - idx)
  some (lf, rt)

/-- `splitNode`: 1 to 3 nodes.  A node that already fits is truncated to
one page (`old.data = old.data[:BTREE_PAGE_SIZE]`). -/
def splitNode (old : List Nat) : Option (List (List Nat)) := do
  if nbytes old ≤ BTREE_PAGE_SIZE then
    some [old.take BTREE_PAGE_SIZE]
  else
    let left := List.replicate (2 * BTREE_PAGE_SIZE) 0
    let right := List.replicate BTREE_PAGE_SIZE 0
    let (left, right) ← splitSingleNode left right old
    if nbytes left ≤ BTREE_PAGE_SIZE then
      some [left.take BTREE_PAGE_SIZE, right]
    else
      let leftleft := List.replicate BTREE_PAGE_SIZE 0
      let middle := List.replicate BTREE_PAGE_SIZE 0
      let (leftleft, middle) ← splitSingleNode leftleft middle left
      if nbytes leftleft > BTREE_PAGE_SIZE then none
      else some [leftleft, middle, right]

/-! ## B+Tree engine (`src/unnamed/part_000`)

The Go `BTree` struct carries three callbacks `get`, `new`, `del`
closing over the storage layer.  They are embedded as a structure of
state-passing functions over an abstract storage state `σ`; a failing
callback (missing page, nil-map write, node too large) is a panic. -/

structure TreeCB (σ : Type) where
  get : σ → Nat → Option (List Nat)
  new : σ → List Nat → Option (σ × Nat)
  del : σ → Nat → Option σ

/-- `nodeReplaceKidN`: replace the link at `idx` with links to `kids`.
The trailing range is copied with count `old.nkeys() - idx + 1`, exactly
as in the source. -/
def nodeReplaceKidN {σ : Type} (cb : TreeCB σ) (s : σ)
    (nw old : List Nat) (idx : Nat) (kids : List (List Nat)) :
    Option (σ × List Nat) := do
  let inc := kids.length
  let nw := setHeader nw BNODE_NODE (nkeysOf old + inc - 1)
  let nw ← nodeAppendRange nw old 0 0 idx
  let st ← kids.foldlM
    (fun (st : σ × List Nat × Nat) kid => do
      let (s, acc, i) := st
      let (s, ptr) ← cb.new s kid
      pure (s, nodeAppendKV acc (idx + i) ptr (getKey kid 0) [], i + 1))
    (s, nw, 0)
  let (s, nw, _) := st
  let nw ← nodeAppendRange nw old (idx + inc) (idx + 1) (nkeysOf old - idx + 1)
  pure (s, nw)

/-- Modelled from the spec: `nodeReplace2Kid` is called by `nodeDelete`
in `src/unnamed/part_000` but defined nowhere under src/.  Per spec
§4.2 (merge-left), it rebuilds the parent by replacing the two slots
`(i-1, i)` with one slot pointing to the merged child keyed by its
first key. -/
def nodeReplace2Kid (nw old : List Nat) (idx ptr : Nat) (key : List Nat) :
    Option (List Nat) := do
  let nw := setHeader nw BNODE_NODE (nkeysOf old - 1)
  let nw ← nodeAppendRange nw old 0 0 idx
  let nw := nodeAppendKV nw idx ptr key []
  nodeAppendRange nw old (idx + 1) (idx + 2) (nkeysOf old - idx - 2)

/-- `shouldMerge`: merge direction (-1 left, 0 none, 1 right) and the
sibling.  The empty byte list stands for the Go zero node `BNode{}`. -/
def shouldMerge {σ : Type} (cb : TreeCB σ) (s : σ) (node : List Nat)
    (idx : Nat) (updated : List Nat) : Option (Int × List Nat) :=
  if nbytes updated > BTREE_PAGE_SIZE / 4 then some (0, [])
  else do
    let tryLeft ←
      if idx > 0 then do
        let sib ← cb.get s (getPtr node (idx - 1))
        if nbytes sib + nbytes updated - HEADER ≤ BTREE_PAGE_SIZE then
          pure (some ((-1 : Int), sib))
        else pure none
      else pure none
    match tryLeft with
    | some res => some res
    | none =>
      if idx + 1 < nkeysOf node then do
        let sib ← cb.get s (getPtr node (idx + 1))
        if nbytes sib + nbytes updated - HEADER ≤ BTREE_PAGE_SIZE then
          some (1, sib)
        else some (0, [])
      else some (0, [])

/-- `treeInsert` with `nodeInsert` inlined in the internal-node branch
(the Go pair is mutually recursive through the child recursion, handled
here with fuel; `none` on fuel exhaustion never fires in the theorems
below).  The result node buffer is `make([]byte, 2*BTREE_PAGE_SIZE)`. -/
def treeInsertGo {σ : Type} (cb : TreeCB σ) :
    Nat → σ → List Nat → List Nat → List Nat → Option (σ × List Nat)
  | 0, _, _, _, _ => none
  | fuel + 1, s, node, key, val => do
    let nw := List.replicate (2 * BTREE_PAGE_SIZE) 0
    let idx := nodeLookupLE node key
    if btype node = BNODE_LEAF then
      if bytesEq key (getKey node idx) then do
        let r ← leafUpdate nw node idx key val
        pure (s, r)
      else do
        let r ← leafInsert nw node (idx + 1) key val
        pure (s, r)
    else if btype node = BNODE_NODE then do
      let kptr := getPtr node idx
      let knode ← cb.get s kptr
      let s ← cb.del s kptr
      let (s, knode) ← treeInsertGo cb fuel s knode key val
      let splits ← splitNode knode
      nodeReplaceKidN cb s nw node idx splits
    else none

/-- `BTree.Insert` (minus the storage layer): key/value size guards,
first-root creation with the sentinel empty key, otherwise recursive
insert followed by a possible root split.  Returns the new root page
id. -/
def btreeInsert {σ : Type} (cb : TreeCB σ) (fuel : Nat) (s : σ)
    (root : Nat) (key val : List Nat) : Option (σ × Nat) := do
  if key.length = 0 then none
  else if key.length > BTREE_MAX_KEY_SIZE then none
  else if val.length > BTREE_MAX_VAL_SIZE then none
  else if root = 0 then
    let rt := setHeader (List.replicate BTREE_PAGE_SIZE 0) BNODE_LEAF 2
    let rt := nodeAppendKV rt 0 0 [] []
    let rt := nodeAppendKV rt 1 0 key val
    cb.new s rt
  else do
    let node ← cb.get s root
    let s ← cb.del s root
    let (s, node) ← treeInsertGo cb fuel s node key val
    let splits ← splitNode node
    if splits.length > 1 then do
      let rt := setHeader (List.replicate BTREE_PAGE_SIZE 0) BNODE_NODE
        splits.length
      let st ← splits.foldlM
        (fun (st : σ × List Nat × Nat) knode => do
          let (s, acc, i) := st
          let (s, ptr) ← cb.new s knode
          pure (s, nodeAppendKV acc i ptr (getKey knode 0) [], i + 1))
        (s, rt, 0)
      let (s, rt, _) := st
      cb.new s rt
    else do
      let one ← splits.head?
      cb.new s one

/-- `treeDelete` with `nodeDelete` inlined in the internal-node branch
(fuel as for `treeInsertGo`).  The empty byte list stands for the Go
zero node `BNode{}` signalling `key not found`. -/
def treeDeleteGo {σ : Type} (cb : TreeCB σ) :
    Nat → σ → List Nat → List Nat → Option (σ × List Nat)
  | 0, _, _, _ => none
  | fuel + 1, s, node, key => do
    let idx := nodeLookupLE node key
    if btype node = BNODE_LEAF then
      if ¬ bytesEq key (getKey node idx) then some (s, [])
      else do
        let r ← leafDelete (List.replicate BTREE_PAGE_SIZE 0) node idx
        some (s, r)
    else if btype node = BNODE_NODE then do
      let kptr := getPtr node idx
      let knode ← cb.get s kptr
      let (s, updated) ← treeDeleteGo cb fuel s knode key
      if updated = [] then some (s, [])
      else do
        let s ← cb.del s kptr
        let nw := List.replicate BTREE_PAGE_SIZE 0
        let (dir, sib) ← shouldMerge cb s node idx updated
        if dir < 0 then do
          let merged ← nodeMerge (List.replicate BTREE_PAGE_SIZE 0) sib updated
          let s ← cb.del s (getPtr node (idx - 1))
          let (s, mptr) ← cb.new s merged
          let r ← nodeReplace2Kid nw node (idx - 1) mptr (getKey merged 0)
          some (s, r)
        else if dir > 0 then do
          let merged ← nodeMerge (List.replicate BTREE_PAGE_SIZE 0) updated sib
          let s ← cb.del s (getPtr node (idx + 1))
          let (s, mptr) ← cb.new s merged
          let r ← nodeReplace2Kid nw node idx mptr (getKey merged 0)
          some (s, r)
        else
          if nkeysOf updated = 0 then none
          else nodeReplaceKidN cb s nw node idx [updated]
    else none

/-- `BTree.Delete`: size guards (panics), empty-tree short cut,
recursive delete, root collapse of a one-child internal root.  Returns
`(deleted?, new root page id)`. -/
def btreeDelete {σ : Type} (cb : TreeCB σ) (fuel : Nat) (s : σ)
    (root : Nat) (key : List Nat) : Option (σ × Bool × Nat) :=
  if key.length = 0 then none
  else if key.length > BTREE_MAX_KEY_SIZE then none
  else if root = 0 then some (s, false, root)
  else do
    let rnode ← cb.get s root
    let (s, updated) ← treeDeleteGo cb fuel s rnode key
    if updated = [] then some (s, false, root)
    else do
      let s ← cb.del s root
      if btype updated = BNODE_NODE ∧ nkeysOf updated = 1 then
        some (s, true, getPtr updated 0)
      else do
        let (s, ptr) ← cb.new s updated
        some (s, true, ptr)

/-- A minimal storage instantiation used to evaluate the engine at
concrete inputs: the state is a page counter, `new` hands out
successive ids, `del` succeeds, `get` has no pages. -/
def countCB : TreeCB Nat where
  get := fun _ _ => none
  new := fun s _ => some (s + 1, s + 1)
  del := fun s _ => some s

/-- An internal node with two keys and all-zero pointer/offset/KV
regions, as produced by this code base's own writers (whose pointer and
offset stores are discarded). -/
def cNode2 : List Nat := setHeader (List.replicate 64 0) BNODE_NODE 2

/-- A one-key leaf kid for the `nodeReplaceKidN` evaluation. -/
def cKid1 : List Nat := setHeader (List.replicate 64 0) BNODE_LEAF 1

/-! ## Free-list node accessors (`src/database/key_value_freelist.go`)

The comment in the source documents the layout
`type 2B | size 2B | total 8B | next 8B | pointers size*8B`, and
`FREE_LIST_HEADER = 4 + 8 + 8 = 20`, but the accessors below use the
byte offsets that literally appear in the source: 16 for `size`, 32
for `total`, 96 for `next`, and `FREE_LIST_HEADER * 8 = 160` as the
base of the pointer array.  A `[]`-buffer plays the Go nil `BNode{}`
checked by `node.data == nil`. -/

def BNODE_FREE_LIST : Nat := 3
def FREE_LIST_HEADER : Nat := 4 + 8 + 8
def FREE_LIST_CAP : Nat := (BTREE_PAGE_SIZE - FREE_LIST_HEADER) / 8

/-- `flnSize`: reads `node.data[16:]`. -/
def flnSize (node : List Nat) : Nat :=
  if node = [] then 0 else readU16 node 16

/-- `flnNext`: reads `node.data[96:]`. -/
def flnNext (node : List Nat) : Nat :=
  if node = [] then 0 else readU64 node 96

/-- `flnPtr`: reads 8 bytes at `FREE_LIST_HEADER*8 + idx*8`. -/
def flnPtr (node : List Nat) (idx : Nat) : Nat :=
  if node = [] then 0 else readU64 node (FREE_LIST_HEADER * 8 + idx * 8)

/-- `flnSetPtr`: writes 8 bytes at `FREE_LIST_HEADER*8 + idx*8`. -/
def flnSetPtr (node : List Nat) (idx ptr : Nat) : List Nat :=
  writeU64 node (FREE_LIST_HEADER * 8 + idx * 8) ptr

/-- `flnSetHeader`: writes `size` at byte 16 and `next` at byte 96. -/
def flnSetHeader (node : List Nat) (size next : Nat) : List Nat :=
  writeU64 (writeU16 node 16 size) 96 next

/-- `flnSetTotal`: writes `total` at byte 32. -/
def flnSetTotal (node : List Nat) (total : Nat) : List Nat :=
  writeU64 node 32 total

/-! ## Storage layer (`src/unnamed/part_001`, `src/database/key_value_persist.go`)

Pages are modelled at page granularity: an mmap chunk is a list of
4096-byte pages (the Go code slices a chunk at byte offset
`BTREE_PAGE_SIZE * (ptr - start)`, which is exactly page
`ptr - start` of the chunk).  The updates map is an association list;
`none` for the whole map models the nil Go map that `Open` never
initializes, `none` for an entry models a page staged as deleted. -/

/-- One association-list update preserving key uniqueness. -/
def updInsert (u : List (Nat × Option (List Nat))) (ptr : Nat)
    (v : Option (List Nat)) : List (Nat × Option (List Nat)) :=
  (ptr, v) :: u.filter (fun e => ¬ e.1 = ptr)

/-- In-memory state of `KeyValue` (file descriptor omitted; the file
content is what the chunks map, plus a size). -/
structure KV where
  fileBytes : Nat
  mmapTotalBytes : Nat
  chunks : List (List (List Nat))
  flushed : Nat
  nfree : Nat
  nappend : Nat
  updates : Option (List (Nat × Option (List Nat)))
  freeHead : Nat
  root : Nat

/-- The chunk walk of `pageGetMapped`: `start` accumulates the page
count of the chunks already passed; inside the covering chunk the page
at index `ptr - start` is returned.  Walking off the end is the Go
panic. -/
def pageGetMappedAux : List (List (List Nat)) → Nat → Nat →
    Option (List Nat)
  | [], _, _ => none
  | c :: cs, start, ptr =>
    if ptr < start + c.length then c.get? (ptr - start)
    else pageGetMappedAux cs (start + c.length) ptr

/-- `pageGetMapped`. -/
def pageGetMapped (chunks : List (List (List Nat))) (ptr : Nat) :
    Option (List Nat) :=
  pageGetMappedAux chunks 0 ptr

/-- `KeyValue.pageGet`: a staged non-nil page wins; a staged nil page
is the panic `pageGet: page is nil`; reading a nil map finds nothing
(legal in Go) and falls through to the mapping. -/
def pageGet (updates : Option (List (Nat × Option (List Nat))))
    (chunks : List (List (List Nat))) (ptr : Nat) : Option (List Nat) :=
  match updates with
  | none => pageGetMapped chunks ptr
  | some u =>
    match u.lookup ptr with
    | some (some page) => some page
    | some none => none
    | none => pageGetMapped chunks ptr

/-- The claim's description of `pageGet` (spec §4.3), as a function:
staged bytes when present and non-empty, otherwise the mapped view. -/
def pageGetClaimed (u : List (Nat × Option (List Nat)))
    (chunks : List (List (List Nat))) (ptr : Nat) : Option (List Nat) :=
  match u.lookup ptr with
  | some (some page) =>
    if page = [] then pageGetMapped chunks ptr else some page
  | _ => pageGetMapped chunks ptr

/-- Page count of the chunks before index `j` (the page-offset base of
chunk `j` in the claim's wording). -/
def chunkBase (chunks : List (List (List Nat))) (j : Nat) : Nat :=
  ((chunks.take j).map List.length).sum

/-- The claim's chunk walk, worded directly: find the first chunk whose
cumulative page count exceeds `ptr`, subtract its base, index the P-byte
view. -/
def pageGetWalkSpec (chunks : List (List (List Nat))) (ptr : Nat) :
    Option (List Nat) :=
  match (List.range chunks.length).find?
      (fun j => ptr < chunkBase chunks (j + 1)) with
  | some j => (chunks.getD j []).get? (ptr - chunkBase chunks j)
  | none => none

/-- `FreeList.Total`: 0 for an empty list, else the head node's
`total` field. -/
def flTotal (db : KV) : Option Nat :=
  if db.freeHead = 0 then some 0
  else (pageGet db.updates db.chunks db.freeHead).map (fun p => readU64 p 32)

/-- Loop of `FreeList.Get`: hop nodes while `flnSize(node) <= topn`. -/
def flGetLoop (db : KV) : Nat → List Nat → Nat → Option Nat
  | 0, _, _ => none
  | fuel + 1, node, topn =>
    if flnSize node ≤ topn then
      let nxt := flnNext node
      if nxt = 0 then none
      else do
        let nd ← pageGet db.updates db.chunks nxt
        flGetLoop db fuel nd (topn - flnSize node)
    else some (flnPtr node (flnSize node - topn - 1))

/-- `FreeList.Get` (`topn` is a Go int, non-negative here; the fuel
bounds the node hops by the page count, which any intact list obeys). -/
def flGet (db : KV) (topn : Nat) : Option Nat := do
  let total ← flTotal db
  if topn ≥ total then none
  else do
    let nd ← pageGet db.updates db.chunks db.freeHead
    flGetLoop db (db.flushed + db.nappend + 2) nd topn

/-- `KeyValue.pageNew`: pop from the free list if it still has unpopped
items, else append; then stage the page (a nil updates map makes the
store panic). -/
def pageNew (db : KV) (node : List Nat) : Option (KV × Nat) :=
  if node.length > BTREE_PAGE_SIZE then none
  else do
    let total ← flTotal db
    if db.nfree < total then do
      let ptr ← flGet db db.nfree
      let db := { db with nfree := db.nfree + 1 }
      let u ← db.updates
      some ({ db with updates := some (updInsert u ptr (some node)) }, ptr)
    else
      let ptr := db.flushed + db.nappend
      let db := { db with nappend := db.nappend + 1 }
      do
        let u ← db.updates
        some ({ db with updates := some (updInsert u ptr (some node)) }, ptr)

/-- `KeyValue.pageDel`: stage the page as deleted. -/
def pageDel (db : KV) (ptr : Nat) : Option KV := do
  let u ← db.updates
  some { db with updates := some (updInsert u ptr none) }

/-- `KeyValue.pageAppend` (free-list callback). -/
def pageAppend (db : KV) (node : List Nat) : Option (KV × Nat) :=
  if node.length > BTREE_PAGE_SIZE then none
  else
    let ptr := db.flushed + db.nappend
    let db := { db with nappend := db.nappend + 1 }
    do
      let u ← db.updates
      some ({ db with updates := some (updInsert u ptr (some node)) }, ptr)

/-- `KeyValue.pageUse` (free-list callback). -/
def pageUse (db : KV) (ptr : Nat) (node : List Nat) : Option KV := do
  let u ← db.updates
  some { db with updates := some (updInsert u ptr (some node)) }

/-- The `BTree` callbacks as wired by `KeyValue.Open`. -/
def kvCB : TreeCB KV where
  get := fun db ptr => pageGet db.updates db.chunks ptr
  new := pageNew
  del := pageDel

/-- Inner loop of phase 2 of `FreeList.Update`: while `remain > 0` and
`len(reuse)*FREE_LIST_CAP < len(freed)+remain`, decrement `remain` and
reuse `flnPtr(node, remain)`. -/
def flReuseLoop (node : List Nat) (freedLen : Nat) :
    Nat → List Nat → Nat × List Nat
  | 0, reuse => (0, reuse)
  | remain + 1, reuse =>
    if reuse.length * FREE_LIST_CAP < freedLen + (remain + 1) then
      flReuseLoop node freedLen remain (reuse ++ [flnPtr node remain])
    else (remain + 1, reuse)

/-- Node-consuming loop of `FreeList.Update`; returns the advanced
state, remaining `popn`, running `total`, and the `freed` / `reuse`
lists. -/
def flUpdateLoop (db : KV) :
    Nat → Nat → Nat → List Nat → List Nat →
    Option (KV × Nat × Nat × List Nat × List Nat)
  | 0, _, _, _, _ => none
  | fuel + 1, popn, total, freed, reuse =>
    if db.freeHead ≠ 0 ∧ reuse.length * FREE_LIST_CAP < freed.length then do
      let node ← pageGet db.updates db.chunks db.freeHead
      let freed := freed ++ [db.freeHead]
      let (popn, freed, reuse) :=
        if popn ≥ flnSize node then (popn - flnSize node, freed, reuse)
        else
          let (remain, reuse) :=
            flReuseLoop node freed.length (flnSize node - popn) reuse
          (0, freed ++ (List.range remain).map (flnPtr node), reuse)
      let total := total - flnSize node
      flUpdateLoop { db with freeHead := flnNext node }
        fuel popn total freed reuse
    else some (db, popn, total, freed, reuse)

/-- `flPush`: chunk `freed` into new free-list nodes of at most
`FREE_LIST_CAP` pointers, each prepended before the current head, using
a reuse destination when available, else appending a fresh page. -/
def flPush (db : KV) : Nat → List Nat → List Nat → Option KV
  | 0, _, _ => none
  | fuel + 1, freed, reuse =>
    if freed = [] then
      if ¬ reuse = [] then none else some db
    else do
      let size := min freed.length FREE_LIST_CAP
      let nd := flnSetHeader (List.replicate BTREE_PAGE_SIZE 0) size
        db.freeHead
      let nd := (List.range size).foldl
        (fun acc i => flnSetPtr acc i (freed.getD i 0)) nd
      let freed := freed.drop size
      match reuse with
      | r :: rs => do
        let db ← pageUse { db with freeHead := r } r nd
        flPush db fuel freed rs
      | [] => do
        let (db, ptr) ← pageAppend db nd
        flPush { db with freeHead := ptr } fuel freed []

/-- Write a whole staged-or-mapped page in place, as Go code that
mutates the byte slice returned by `fl.get` does (the slice aliases
either an `updates` value or the mapping). -/
def setMappedPageAux : List (List (List Nat)) → Nat → Nat →
    (List Nat → List Nat) → Option (List (List (List Nat)))
  | [], _, _, _ => none
  | c :: cs, start, ptr, f =>
    if ptr < start + c.length then
      some ((c.set (ptr - start) (f (c.getD (ptr - start) []))) :: cs)
    else (setMappedPageAux cs (start + c.length) ptr f).map (c :: ·)

/-- Apply `f` to the bytes page `ptr` aliases: an updates entry if
staged non-nil, else the mapped page. -/
def pageWriteThrough (db : KV) (ptr : Nat) (f : List Nat → List Nat) :
    Option KV :=
  match db.updates with
  | some u =>
    match u.lookup ptr with
    | some (some p) =>
      some { db with updates := some (updInsert u ptr (some (f p))) }
    | some none => none
    | none =>
      (setMappedPageAux db.chunks 0 ptr f).map
        (fun cs => { db with chunks := cs })
  | none =>
    (setMappedPageAux db.chunks 0 ptr f).map
      (fun cs => { db with chunks := cs })

/-- `FreeList.Update`: pop `popn` pointers and push `freed`. -/
def flUpdate (db : KV) (popn : Nat) (freed : List Nat) : Option KV := do
  let total0 ← flTotal db
  if popn > total0 then none
  else if popn = 0 ∧ freed = [] then some db
  else do
    let fuel := db.flushed + db.nappend + 2
    let (db, _, total, freed, reuse) ←
      flUpdateLoop db fuel popn total0 freed []
    if reuse.length * FREE_LIST_CAP < freed.length ∧ db.freeHead ≠ 0 then
      none
    else do
      let db ← flPush db (freed.length + 2) freed reuse
      pageWriteThrough db db.freeHead
        (fun p => flnSetTotal p (total + freed.length))

/-- Geometric file-growth loop of `extendFile`; adds
`max 1 (filePages/8)` pages per iteration. -/
def growLoop : Nat → Nat → Nat → Option Nat
  | 0, _, _ => none
  | fuel + 1, filePages, npages =>
    if filePages ≥ npages then some filePages
    else growLoop fuel (filePages + max 1 (filePages / 8)) npages

/-- `extendFile` (the `Fallocate` syscall is assumed to succeed; it
zero-fills the extension). -/
def extendFile (db : KV) (npages : Nat) : Option KV :=
  let filePages := db.fileBytes / BTREE_PAGE_SIZE
  if filePages ≥ npages then some db
  else
    (growLoop (npages + 2) filePages npages).map
      (fun fp => { db with fileBytes := fp * BTREE_PAGE_SIZE })

/-- `extendMmap`: one additional mapping of `mmap.total` bytes at file
offset `mmap.total` (never yet written through the mapping, hence
zero), doubling `mmap.total`.  The `Mmap` syscall is assumed to
succeed. -/
def extendMmap (db : KV) (npages : Nat) : Option KV :=
  if db.mmapTotalBytes ≥ npages * BTREE_PAGE_SIZE then some db
  else
    some { db with
      mmapTotalBytes := db.mmapTotalBytes + db.mmapTotalBytes,
      chunks := db.chunks ++
        [List.replicate (db.mmapTotalBytes / BTREE_PAGE_SIZE)
          (List.replicate BTREE_PAGE_SIZE 0)] }

/-- The master page bytes built by `masterStore`:
`copy(data[:16], DB_SIG)` over a zeroed 32-byte array, root at 16,
flushed at 24. -/
def DB_SIG_BYTES : List Nat :=
  [84, 114, 101, 101, 86, 97, 117, 108, 116, 68, 66]

def masterStoreBytes (root flushed : Nat) : List Nat :=
  writeU64 (writeU64 (bcopy (List.replicate 32 0) 0 DB_SIG_BYTES 0 11)
    16 root) 24 flushed

/-- `masterStore`: a 32-byte positional write at file offset 0, visible
through chunk 0 (MAP_SHARED); `WriteAt` is assumed to succeed. -/
def masterStore (db : KV) : KV :=
  { db with chunks :=
      match db.chunks with
      | [] => []
      | c :: cs =>
        (match c with
         | [] => []
         | p :: ps => bcopy p 0 (masterStoreBytes db.root db.flushed) 0 32
             :: ps) :: cs }

/-- `masterLoad` over the file size and the first chunk, with the
incoming `tree.root` (left untouched for an empty file): returns
`(root, flushed)`.  The signature check compares the 11 literal bytes
of `DB_SIG` against `data[:16]`, exactly as
`bytes.Equal([]byte(DB_SIG), data[:16])` does. -/
def masterLoad (fileBytes : Nat) (chunk0 : List Nat) (rootIn : Nat) :
    Except String (Nat × Nat) :=
  if fileBytes = 0 then .ok (rootIn, 1)
  else
    let root := readU64 chunk0 16
    let used := readU64 chunk0 24
    if ¬ bytesEq DB_SIG_BYTES (chunk0.take 16) then .error "bad Signature"
    else if ¬ (1 ≤ used ∧ used ≤ fileBytes / BTREE_PAGE_SIZE) ∨
        ¬ (root < used) then .error "bad master page"
    else .ok (root, used)

/-- `writePages`: collect freed ids from `updates` (ranging a nil map
iterates zero times), reconcile the free list, extend file and mapping
to `flushed + nappend` pages, then copy every staged non-nil page into
its mapped page. -/
def writePages (db : KV) : Option KV := do
  let u := db.updates.getD []
  let freed := (u.filter (fun e => e.2.isNone)).map (·.1)
  let db ← flUpdate db db.nfree freed
  let npages := db.flushed + db.nappend
  let db ← extendFile db npages
  let db ← extendMmap db npages
  let u2 := db.updates.getD []
  u2.foldlM
    (fun acc e =>
      match e.2 with
      | none => some acc
      | some page =>
        (setMappedPageAux acc.chunks 0 e.1 (fun old => splice old 0 page)).map
          (fun cs => { acc with chunks := cs }))
    db

/-- `syncPages`: fsync (assumed to succeed), bump `flushed` by
`nappend`, replace `updates` with a fresh empty map, store the master
page, fsync again.  `nappend` and `nfree` are left as they are, exactly
as in the source. -/
def syncPages (db : KV) : KV :=
  masterStore { db with
    flushed := db.flushed + db.nappend, updates := some [] }

/-- `flushPages`. -/
def flushPages (db : KV) : Option KV := do
  let db ← writePages db
  some (syncPages db)

/-- `KeyValue.Set`: insert, then commit. -/
def kvSet (db : KV) (key val : List Nat) : Option KV := do
  let (db, newRoot) ←
    btreeInsert kvCB (db.flushed + db.nappend + 2) db db.root key val
  flushPages { db with root := newRoot }

/-- `KeyValue.Del`: delete, then commit regardless. -/
def kvDel (db : KV) (key : List Nat) : Option (Bool × KV) := do
  let (db, deleted, newRoot) ←
    btreeDelete kvCB (db.flushed + db.nappend + 2) db db.root key
  (flushPages { db with root := newRoot }).map (fun db2 => (deleted, db2))

/-- Modelled from the spec: `BTree.Get` is called by `KeyValue.Get`
(`src/unnamed/part_001`) but defined nowhere under src/.  Per spec
§4.2: standard descent with `lookup_le` at each internal node; at the
leaf, found iff the key at the returned index equals the search key
exactly. -/
def treeGetGo (db : KV) : Nat → List Nat → List Nat →
    Option (List Nat × Bool)
  | 0, _, _ => none
  | fuel + 1, node, key =>
    let idx := nodeLookupLE node key
    if btype node = BNODE_LEAF then
      if bytesEq key (getKey node idx) then some (getVal node idx, true)
      else some ([], false)
    else if btype node = BNODE_NODE then do
      let child ← pageGet db.updates db.chunks (getPtr node idx)
      treeGetGo db fuel child key
    else none

/-- `KeyValue.Get` via the spec-modelled `BTree.Get`. -/
def kvGet (db : KV) (key : List Nat) : Option (List Nat × Bool) :=
  if db.root = 0 then some ([], false)
  else do
    let node ← pageGet db.updates db.chunks db.root
    treeGetGo db (db.flushed + db.nappend + 2) node key

/-- The `KeyValue` state right after `Open()` on an empty file: a
64 MiB zero mapping, `flushed = 1` from `masterLoad`, zero counters —
and `updates` still the nil map, because `Open` never initializes it. -/
def openedKV : KV where
  fileBytes := 0
  mmapTotalBytes := 64 * 1024 * 1024
  chunks := [List.replicate 16384 (List.replicate BTREE_PAGE_SIZE 0)]
  flushed := 1
  nfree := 0
  nappend := 0
  updates := none
  freeHead := 0
  root := 0

/-- A commit-ready state for the C6 evaluation: one page staged at id 1,
page 2 staged as freed, two pages appended this commit, one page popped
from the free list. -/
def c6KV : KV where
  fileBytes := 3 * BTREE_PAGE_SIZE
  mmapTotalBytes := 64 * 1024 * 1024
  chunks := [[List.replicate BTREE_PAGE_SIZE 0]]
  flushed := 1
  nfree := 1
  nappend := 2
  updates := some [(1, some (List.replicate BTREE_PAGE_SIZE 7)), (2, none)]
  freeHead := 0
  root := 1

/-- A one-page file whose master page was produced by this code base's
own `masterStore` with `root = 0`, `flushed = 1`: 16-byte signature
`TreeVaultDB` padded with NULs, then the two little-endian fields. -/
def c8Chunk : List Nat :=
  masterStoreBytes 0 1 ++ List.replicate (BTREE_PAGE_SIZE - 32) 0

/-! ## Encoded nodes

`encodeNode` builds the packed page of the node layout documented in
the `BNode` struct comment (`src/btree/bnode.go` lines 28-38): type and
nkeys, `8*nkeys` pointer bytes, `2*nkeys` end-offset bytes, then
`klen | vlen | key | val` per entry, zero-padded to the buffer size.
Quantifying over entry lists quantifies over well-formed nodes. -/

structure Ent where
  ptr : Nat
  key : List Nat
  val : List Nat

instance : Inhabited Ent := ⟨⟨0, [], []⟩⟩

/-- Little-endian bytes of a 16-bit value. -/
def u16le (v : Nat) : List Nat := [v % 256, v / 256 % 256]

/-- Little-endian bytes of a 64-bit value. -/
def u64le (v : Nat) : List Nat :=
  [v % 256, v / 256 % 256, v / 256 ^ 2 % 256, v / 256 ^ 3 % 256,
    v / 256 ^ 4 % 256, v / 256 ^ 5 % 256, v / 256 ^ 6 % 256,
    v / 256 ^ 7 % 256]

/-- KV-region bytes of one entry: `4 + klen + vlen`. -/
def entSize (e : Ent) : Nat := 4 + e.key.length + e.val.length

def entsSize (es : List Ent) : Nat := (es.map entSize).sum

/-- Offset of the start of slot `i` in the KV region (the value stored
at offset index `i`; `offAt es 0 = 0`). -/
def offAt (es : List Ent) (i : Nat) : Nat := entsSize (es.take i)

/-- `klen | vlen | key | val`. -/
def kvBytes (e : Ent) : List Nat :=
  u16le e.key.length ++ u16le e.val.length ++ e.key ++ e.val

def ptrBytes : List Ent → List Nat
  | [] => []
  | e :: es => u64le e.ptr ++ ptrBytes es

/-- End offsets stored at indices 1..n, accumulated from `base`. -/
def offBytesAux (base : Nat) : List Ent → List Nat
  | [] => []
  | e :: es => u16le (base + entSize e) ++ offBytesAux (base + entSize e) es

def offBytes (es : List Ent) : List Nat := offBytesAux 0 es

def kvsBytes : List Ent → List Nat
  | [] => []
  | e :: es => kvBytes e ++ kvsBytes es

/-- `nbytes` of a node with these entries. -/
def rawSize (es : List Ent) : Nat := HEADER + 10 * es.length + entsSize es

def encodeNode (t : Nat) (es : List Ent) (pad : Nat) : List Nat :=
  u16le t ++ u16le es.length ++ ptrBytes es ++ offBytes es ++
    kvsBytes es ++ List.replicate pad 0

/-- Size limits and byte-ness of one entry. -/
def wfEnt (e : Ent) : Prop :=
  e.key.length ≤ BTREE_MAX_KEY_SIZE ∧ e.val.length ≤ BTREE_MAX_VAL_SIZE ∧
    (∀ b ∈ e.key, b < 256) ∧ (∀ b ∈ e.val, b < 256) ∧ e.ptr < 2 ^ 64

instance (e : Ent) : Decidable (wfEnt e) := by
  unfold wfEnt; infer_instance

/-- Storage instantiation for the delete-miss frame property: a
read-only page store plus logs of every `new` and `del` callback
invocation. -/
structure LogStore where
  pages : List (Nat × List Nat)
  newLog : List (List Nat)
  delLog : List Nat

/-- `get` looks pages up, `new` and `del` log their invocation (the id
handed out by `new` is immaterial to the claims). -/
def logCB : TreeCB LogStore where
  get := fun s ptr => s.pages.lookup ptr
  new := fun s node =>
    some ({ s with newLog := s.newLog ++ [node] }, 1000000 + s.newLog.length)
  del := fun s ptr => some { s with delLog := s.delLog ++ [ptr] }

/-- All keys stored in leaves reachable from `ptr`, read through the
codec accessors, fuel-bounded by tree height. -/
def treeKeysGo (pages : List (Nat × List Nat)) : Nat → Nat → List (List Nat)
  | 0, _ => []
  | fuel + 1, ptr =>
    match pages.lookup ptr with
    | none => []
    | some nd =>
      if btype nd = BNODE_LEAF then
        (List.range (nkeysOf nd)).map (getKey nd)
      else
        ((List.range (nkeysOf nd)).map
          (fun i => treeKeysGo pages fuel (getPtr nd i))).flatten

/-- Well-formed encoded tree of height at most `fuel` rooted at `ptr`:
every page is an encoded node padded to one page, keys are at least
one per node, entries obey the size limits, and internal nodes point
at well-formed subtrees. -/
def wfTree (pages : List (Nat × List Nat)) : Nat → Nat → Prop
  | 0, _ => False
  | fuel + 1, ptr => ∃ t es,
      pages.lookup ptr =
        some (encodeNode t es (BTREE_PAGE_SIZE - rawSize es)) ∧
      rawSize es ≤ BTREE_PAGE_SIZE ∧ 1 ≤ es.length ∧
      (∀ e ∈ es, wfEnt e) ∧
      (t = BNODE_LEAF ∨ (t = BNODE_NODE ∧ ∀ e ∈ es, wfTree pages fuel e.ptr))

/-- Entries of the concrete one-leaf tree for the C10 witness: the
sentinel empty entry and one real key. -/
def c10Ents : List Ent := [⟨0, [], []⟩, ⟨0, [2], [3]⟩]

def c10Pages : List (Nat × List Nat) :=
  [(1, encodeNode BNODE_LEAF c10Ents (BTREE_PAGE_SIZE - rawSize c10Ents))]

def c10LS : LogStore := ⟨c10Pages, [], []⟩

/-- C5's claim at a node `old`, as stated: splitting (with the buffers
`splitNode` passes) yields a right node of at most one page that holds
old's entries from the chosen split index to the end. -/
def claimC5At (old : List Nat) : Prop :=
  ∃ lf rt, splitSingleNode (List.replicate (2 * BTREE_PAGE_SIZE) 0)
      (List.replicate BTREE_PAGE_SIZE 0) old = some (lf, rt) ∧
    nbytes rt ≤ BTREE_PAGE_SIZE ∧
    nkeysOf rt = nkeysOf old - splitIdxAux old (nbytes old) (nkeysOf old) 0 0 ∧
    ∀ j, j < nkeysOf rt →
      getKey rt j =
        getKey old (splitIdxAux old (nbytes old) (nkeysOf old) 0 0 + j) ∧
      getVal rt j =
        getVal old (splitIdxAux old (nbytes old) (nkeysOf old) 0 0 + j)

/-- Two maximum-size entries: 8032 raw bytes, more than one page. -/
def c5Ents : List Ent :=
  [⟨0, List.replicate 1000 1, List.replicate 3000 2⟩,
    ⟨0, List.replicate 1000 3, List.replicate 3000 4⟩]

/-- The oversized node in its two-page insert buffer. -/
def c5Old : List Nat :=
  encodeNode BNODE_LEAF c5Ents (2 * BTREE_PAGE_SIZE - rawSize c5Ents)

def c5Split : Option (List Nat × List Nat) :=
  splitSingleNode (List.replicate (2 * BTREE_PAGE_SIZE) 0)
    (List.replicate BTREE_PAGE_SIZE 0) c5Old

def c5Right : List Nat := (c5Split.getD ([], [])).2

/-- The right-node header buffer built by `splitSingleNode` on `c5Old`
(split index 0, so the right node keeps both keys). -/
def c5RtHdr : List Nat :=
  setHeader (List.replicate BTREE_PAGE_SIZE 0) (btype c5Old) 2

/-- The right node produced by `splitSingleNode` on `c5Old`: the KV
region `c5Old[24:8032]` spliced into the one-page header buffer (and
truncated by `copy` at the page boundary). -/
def c5Rt : List Nat := bcopy c5RtHdr 24 c5Old 24 8008

/-! ## Theorems -/

/-- C2: internal-node rebuild on insertion.  Evaluating the source
`nodeReplaceKidN` at an internal node with `nkeys = 2`, child slot
`idx = 0` and a single replacement child shows that it panics
unconditionally: the trailing `nodeAppendRange(new, old, idx+inc, idx+1,
old.nkeys()-idx+1)` copies `old.nkeys() - idx + 1` slots starting at
`idx + 1`, so `srcOld + n = old.nkeys() + 2 > old.nkeys()` and the
bounds check fires.  The claimed rebuilt node (with
`old.nkeys + k - 1` entries) is never produced. -/
theorem c2_nodeReplaceKidN_panics :
    nodeReplaceKidN countCB 0 (List.replicate (2 * BTREE_PAGE_SIZE) 0)
      cNode2 0 [cKid1] = none := by
  rfl

/-- C3: leaf deletion.  Evaluating the source `leafDelete` at a leaf
with `nkeys = 2` and `idx = 1` shows that it panics unconditionally:
the trailing `nodeAppendRange(new, old, idx, idx+1, old.nkeys()-idx+1)`
copies `old.nkeys() - idx + 1` slots starting at `idx + 1`, so
`srcOld + n = old.nkeys() + 2 > old.nkeys()` and the bounds check
fires.  The claimed leaf with `old.nkeys - 1` entries is never
produced. -/
theorem c3_leafDelete_panics :
    leafDelete (List.replicate BTREE_PAGE_SIZE 0)
      (setHeader (List.replicate 64 0) BNODE_LEAF 2) 1 = none := by
  rfl

/-- The concrete `nodeAppendKV` result for C4: a fresh one-key leaf
page, slot 0, pointer 7, key `[10]`, value `[20, 30]`. -/
def c4Result : List Nat :=
  nodeAppendKV (setHeader (List.replicate BTREE_PAGE_SIZE 0) BNODE_LEAF 1)
    0 7 [10] [20, 30]

/-- C4: `append_kv` postcondition.  After `nodeAppendKV(dst, 0, 7,
[10], [20,30])` the key length, value length, key and value bytes are
stored, but the pointer read back at slot 0 is 0 (not 7) and
`offset_get(1)` is 0 (not `offset_get(0) + 4 + 1 + 2 = 7`): the source
`setPtr` and `setOffSet` discard the result of
`binary.LittleEndian.AppendUint64` / `AppendUint16`, so neither field
is ever written. -/
theorem c4_appendKV_drops_ptr_and_offset :
    getPtr c4Result 0 = 0 ∧ getOffSet c4Result 1 = 0 ∧
      readU16 c4Result (kvPos c4Result 0) = 1 ∧
      getKey c4Result 0 = [10] ∧ getVal c4Result 0 = [20, 30] := by
  refine ⟨by rfl, by rfl, by rfl, by rfl, by rfl⟩

/-- `pageNew` on a state whose `updates` map was never initialized
(nil) panics: every branch ends in the store
`db.page.updates[ptr] = node.data`. -/
theorem pageNew_eq_none_of_nil_map (db : KV) (node : List Nat)
    (h : db.updates = none) : pageNew db node = none := by
  unfold pageNew
  split
  · rfl
  · cases hft : flTotal db with
    | none => rfl
    | some t =>
      simp only [Option.bind_eq_bind, Option.some_bind]
      split
      · cases hg : flGet db db.nfree with
        | none => rfl
        | some p => simp [h]
      · simp [h]

/-- C1: round trip at the public interface.  `KeyValue.Open` never
initializes `db.page.updates`, so on the state `Open()` leaves behind,
the very first `Set` panics inside `pageNew` (assignment to an entry of
a nil map) while staging the first root leaf: `Set` never returns
successfully and `set(k, v); get(k) = (v, true)` cannot be realized.
(Even with the map initialized elsewhere, the round trip breaks later:
`setOffSet` discards its `AppendUint16` result, so leaf slots share
offset 0 and an entry reaching past byte 4096 of the staged page is
truncated by the `splitNode` re-slice before being flushed.) -/
theorem c1_first_set_panics : kvSet openedKV [97] [49] = none := by
  have hnew : ∀ nd, kvCB.new openedKV nd = none := fun nd =>
    pageNew_eq_none_of_nil_map _ _ rfl
  have hb : btreeInsert kvCB (openedKV.flushed + openedKV.nappend + 2)
      openedKV openedKV.root [97] [49] = none := by
    unfold btreeInsert
    rw [if_neg (by decide), if_neg (by decide), if_neg (by decide),
      if_pos (show openedKV.root = 0 from rfl)]
    exact hnew _
  unfold kvSet
  rw [hb]
  rfl

/-- C6: commit epilogue.  Evaluating `syncPages` at a commit that
appended two pages and popped one from the free list: `flushed` grows
by the pre-commit `nappend` and `updates` is replaced by a fresh empty
map, but `nappend` stays 2 and `nfree` stays 1 — `syncPages` (and the
rest of `flushPages`) never resets them, contrary to the claim. -/
theorem c6_syncPages_keeps_nappend_nfree :
    (syncPages c6KV).flushed = 3 ∧ (syncPages c6KV).updates = some [] ∧
      (syncPages c6KV).nappend = 2 ∧ (syncPages c6KV).nfree = 1 := by
  refine ⟨rfl, rfl, rfl, rfl⟩

/-- C7: free-list on-disk layout.  Writing a header with `size = 9`
lands at byte 16 (the documented size field at byte 2 still reads 0);
`next = 3` lands at byte 96 (documented byte 12 reads 0); a total of 5
lands at byte 32 (documented byte 4 reads 0); pointer 0 lands at byte
`FREE_LIST_HEADER * 8 = 160` (documented byte `20 + 8*0` reads 0).
The constant `FREE_LIST_HEADER` is 20 as documented, but the accessors
multiply it by 8. -/
theorem c7_freelist_accessor_offsets :
    flnSize (flnSetHeader (List.replicate BTREE_PAGE_SIZE 0) 9 0) = 9 ∧
      readU16 (flnSetHeader (List.replicate BTREE_PAGE_SIZE 0) 9 0) 2 = 0 ∧
      flnNext (flnSetHeader (List.replicate BTREE_PAGE_SIZE 0) 0 3) = 3 ∧
      readU64 (flnSetHeader (List.replicate BTREE_PAGE_SIZE 0) 0 3) 12 = 0 ∧
      readU64 (flnSetTotal (List.replicate BTREE_PAGE_SIZE 0) 5) 32 = 5 ∧
      readU64 (flnSetTotal (List.replicate BTREE_PAGE_SIZE 0) 5) 4 = 0 ∧
      flnPtr (flnSetPtr (List.replicate BTREE_PAGE_SIZE 0) 0 11) 0 = 11 ∧
      readU64 (flnSetPtr (List.replicate BTREE_PAGE_SIZE 0) 0 11) 20 = 0 ∧
      FREE_LIST_HEADER = 20 ∧ FREE_LIST_HEADER * 8 = 160 := by
  refine ⟨by rfl, by rfl, by rfl, by rfl, by rfl, by rfl, by rfl, by rfl,
    by rfl, by rfl⟩

/-- C8: master-page load.  `c8Chunk` is a non-empty one-page file whose
16-byte signature is exactly `TreeVaultDB` NUL-padded (what
`masterStore` itself writes), with `root = 0 < flushed = 1 ≤
file_size / P = 1` — by the claim, `masterLoad` must succeed.  It
fails: `bytes.Equal([]byte(DB_SIG), data[:16])` compares an 11-byte
string against 16 bytes and is always false, so every non-empty file
(including one written by this code's own `masterStore`) is rejected
with `bad Signature`. -/
theorem c8_masterLoad_rejects_own_master :
    masterLoad BTREE_PAGE_SIZE c8Chunk 0 = .error "bad Signature" ∧
      c8Chunk.take 16 = DB_SIG_BYTES ++ [0, 0, 0, 0, 0] ∧
      readU64 c8Chunk 16 = 0 ∧ readU64 c8Chunk 24 = 1 := by
  refine ⟨by rfl, by rfl, by rfl, by rfl⟩

theorem bget_cons_zero (a : Nat) (l : List Nat) : bget (a :: l) 0 = a := rfl

theorem bget_cons_succ (a : Nat) (l : List Nat) (i : Nat) :
    bget (a :: l) (i + 1) = bget l i := rfl

theorem bget_append_right (a b : List Nat) (i : Nat) :
    bget (a ++ b) (a.length + i) = bget b i := by
  unfold bget
  rw [List.getD_append_right a b 0 (a.length + i) (by omega)]
  congr 1
  omega

theorem bget_drop (l : List Nat) (d i : Nat) :
    bget (l.drop d) i = bget l (d + i) := by
  unfold bget
  rw [List.getD_eq_getD_get?, List.getD_eq_getD_get?]
  simp [List.getElem?_drop]

theorem bget_replicate (n v i : Nat) : bget (List.replicate n v) i =
    if i < n then v else 0 := by
  unfold bget
  by_cases h : i < n
  · rw [if_pos h, List.getD_eq_getElem _ _ (by simpa using h)]
    simp
  · rw [if_neg h, List.getD_eq_default _ _ (by simpa using h)]

theorem readU16_append_right (a b : List Nat) (i : Nat) :
    readU16 (a ++ b) (a.length + i) = readU16 b i := by
  unfold readU16
  rw [bget_append_right, show a.length + i + 1 = a.length + (i + 1) by omega,
    bget_append_right]

theorem readU64_append_right (a b : List Nat) (i : Nat) :
    readU64 (a ++ b) (a.length + i) = readU64 b i := by
  unfold readU64
  rw [bget_append_right,
    show a.length + i + 1 = a.length + (i + 1) by omega,
    show a.length + i + 2 = a.length + (i + 2) by omega,
    show a.length + i + 3 = a.length + (i + 3) by omega,
    show a.length + i + 4 = a.length + (i + 4) by omega,
    show a.length + i + 5 = a.length + (i + 5) by omega,
    show a.length + i + 6 = a.length + (i + 6) by omega,
    show a.length + i + 7 = a.length + (i + 7) by omega,
    bget_append_right, bget_append_right, bget_append_right,
    bget_append_right, bget_append_right, bget_append_right,
    bget_append_right]

theorem readU16_drop (l : List Nat) (d i : Nat) :
    readU16 (l.drop d) i = readU16 l (d + i) := by
  unfold readU16
  rw [bget_drop, bget_drop, show d + i + 1 = d + (i + 1) by omega]

theorem readU16_eq_drop_zero (l : List Nat) (d : Nat) :
    readU16 l d = readU16 (l.drop d) 0 := by
  rw [readU16_drop, Nat.add_zero]

theorem readU16_u16le (v : Nat) (rest : List Nat) (h : v < 65536) :
    readU16 (u16le v ++ rest) 0 = v := by
  show v % 256 + 256 * (v / 256 % 256) = v
  omega

theorem readU64_u64le (v : Nat) (rest : List Nat) (h : v < 2 ^ 64) :
    readU64 (u64le v ++ rest) 0 = v := by
  show v % 256 + 256 * (v / 256 % 256) + 256 ^ 2 * (v / 256 ^ 2 % 256) +
    256 ^ 3 * (v / 256 ^ 3 % 256) + 256 ^ 4 * (v / 256 ^ 4 % 256) +
    256 ^ 5 * (v / 256 ^ 5 % 256) + 256 ^ 6 * (v / 256 ^ 6 % 256) +
    256 ^ 7 * (v / 256 ^ 7 % 256) = v
  omega

theorem u16le_length (v : Nat) : (u16le v).length = 2 := rfl

theorem u64le_length (v : Nat) : (u64le v).length = 8 := rfl

theorem entSize_ge (e : Ent) : 4 ≤ entSize e := by
  unfold entSize; omega

theorem entsSize_nil : entsSize [] = 0 := rfl

theorem entsSize_cons (e : Ent) (es : List Ent) :
    entsSize (e :: es) = entSize e + entsSize es := by
  simp [entsSize]

theorem kvBytes_length (e : Ent) : (kvBytes e).length = entSize e := by
  simp [kvBytes, entSize, u16le]
  omega

theorem ptrBytes_length (es : List Ent) :
    (ptrBytes es).length = 8 * es.length := by
  induction es with
  | nil => rfl
  | cons e es ih => simp [ptrBytes, ih, u64le]; omega

theorem offBytesAux_length (es : List Ent) :
    ∀ b, (offBytesAux b es).length = 2 * es.length := by
  induction es with
  | nil => intro b; rfl
  | cons e es ih => intro b; simp [offBytesAux, ih, u16le]; omega

theorem offBytes_length (es : List Ent) :
    (offBytes es).length = 2 * es.length := offBytesAux_length es 0

theorem kvsBytes_length (es : List Ent) :
    (kvsBytes es).length = entsSize es := by
  induction es with
  | nil => rfl
  | cons e es ih => simp [kvsBytes, ih, kvBytes_length, entsSize_cons]

theorem offAt_zero (es : List Ent) : offAt es 0 = 0 := rfl

theorem offAt_cons_succ (e : Ent) (es : List Ent) (i : Nat) :
    offAt (e :: es) (i + 1) = entSize e + offAt es i := by
  simp [offAt, entsSize]

theorem offAt_length (es : List Ent) : offAt es es.length = entsSize es := by
  simp [offAt]

theorem offAt_le (es : List Ent) : ∀ i, offAt es i ≤ entsSize es := by
  induction es with
  | nil => intro i; simp [offAt, entsSize]
  | cons e es ih =>
    intro i
    cases i with
    | zero => simp [offAt_zero]
    | succ i => rw [offAt_cons_succ, entsSize_cons]; have := ih i; omega

theorem btype_encode (t : Nat) (es : List Ent) (pad : Nat)
    (h : t < 65536) : btype (encodeNode t es pad) = t := by
  unfold btype encodeNode
  simp only [List.append_assoc]
  exact readU16_u16le t _ h

theorem nkeysOf_encode (t : Nat) (es : List Ent) (pad : Nat)
    (h : es.length < 65536) : nkeysOf (encodeNode t es pad) = es.length := by
  unfold nkeysOf encodeNode
  simp only [List.append_assoc]
  rw [show (2 : Nat) = (u16le t).length + 0 from rfl, readU16_append_right]
  exact readU16_u16le _ _ h

theorem ptrBytes_readU64 (es : List Ent) :
    ∀ (i : Nat) (R : List Nat), i < es.length → (∀ e ∈ es, e.ptr < 2 ^ 64) →
      readU64 (ptrBytes es ++ R) (8 * i) = (es.getD i default).ptr := by
  induction es with
  | nil => intro i R hi _; exact absurd hi (by simp)
  | cons e es ih =>
    intro i R hi hp
    cases i with
    | zero =>
      rw [show ptrBytes (e :: es) = u64le e.ptr ++ ptrBytes es from rfl,
        List.append_assoc]
      exact readU64_u64le _ _ (hp e (by simp))
    | succ i =>
      rw [show ptrBytes (e :: es) = u64le e.ptr ++ ptrBytes es from rfl,
        List.append_assoc,
        show 8 * (i + 1) = (u64le e.ptr).length + 8 * i by
          rw [u64le_length]; omega,
        readU64_append_right]
      exact ih i R (by simpa using hi) (fun x hx => hp x (by simp [hx]))

theorem getPtr_encode (t : Nat) (es : List Ent) (pad i : Nat)
    (hi : i < es.length) (hn : es.length < 65536)
    (hp : ∀ e ∈ es, e.ptr < 2 ^ 64) :
    getPtr (encodeNode t es pad) i = (es.getD i default).ptr := by
  unfold getPtr encodeNode HEADER
  simp only [List.append_assoc]
  rw [show 4 + 8 * i = (u16le t).length + (2 + 8 * i) by
      rw [u16le_length]; omega,
    readU64_append_right,
    show 2 + 8 * i = (u16le es.length).length + 8 * i by rw [u16le_length],
    readU64_append_right]
  exact ptrBytes_readU64 es i _ hi hp

theorem offBytesAux_readU16 (es : List Ent) :
    ∀ (b j : Nat) (R : List Nat), j < es.length → b + entsSize es < 65536 →
      readU16 (offBytesAux b es ++ R) (2 * j) = b + offAt es (j + 1) := by
  induction es with
  | nil => intro b j R hj _; exact absurd hj (by simp)
  | cons e es ih =>
    intro b j R hj hb
    rw [entsSize_cons] at hb
    cases j with
    | zero =>
      rw [show offBytesAux b (e :: es) =
          u16le (b + entSize e) ++ offBytesAux (b + entSize e) es from rfl,
        List.append_assoc, show 2 * 0 = 0 from rfl,
        readU16_u16le _ _ (by omega), offAt_cons_succ, offAt_zero]
      omega
    | succ j =>
      rw [show offBytesAux b (e :: es) =
          u16le (b + entSize e) ++ offBytesAux (b + entSize e) es from rfl,
        List.append_assoc,
        show 2 * (j + 1) = (u16le (b + entSize e)).length + 2 * j by
          rw [u16le_length]; omega,
        readU16_append_right,
        ih (b + entSize e) j R (by simpa using hj) (by omega),
        offAt_cons_succ]
      omega

theorem getOffSet_encode (t : Nat) (es : List Ent) (pad idx : Nat)
    (h1 : 1 ≤ idx) (h2 : idx ≤ es.length) (hn : es.length < 65536)
    (hsz : entsSize es < 65536) :
    getOffSet (encodeNode t es pad) idx = offAt es idx := by
  obtain ⟨j, rfl⟩ : ∃ j, idx = j + 1 := ⟨idx - 1, by omega⟩
  unfold getOffSet offsetPos
  rw [if_neg (by omega), nkeysOf_encode t es pad hn]
  show readU16 (encodeNode t es pad) (HEADER + 8 * es.length + 2 * j) =
    offAt es (j + 1)
  unfold encodeNode HEADER
  simp only [List.append_assoc]
  rw [show 4 + 8 * es.length + 2 * j =
      (u16le t).length + (2 + 8 * es.length + 2 * j) by
        rw [u16le_length]; omega,
    readU16_append_right,
    show 2 + 8 * es.length + 2 * j =
      (u16le es.length).length + (8 * es.length + 2 * j) by
        rw [u16le_length]; omega,
    readU16_append_right,
    show 8 * es.length + 2 * j = (ptrBytes es).length + 2 * j by
      rw [ptrBytes_length],
    readU16_append_right]
  rw [show offBytes es ++ (kvsBytes es ++ List.replicate pad 0) =
      offBytesAux 0 es ++ (kvsBytes es ++ List.replicate pad 0) from rfl,
    offBytesAux_readU16 es 0 j _ (by omega) (by omega)]
  omega

theorem kvPos_encode (t : Nat) (es : List Ent) (pad idx : Nat)
    (hidx : idx ≤ es.length) (hn : es.length < 65536)
    (hsz : entsSize es < 65536) :
    kvPos (encodeNode t es pad) idx =
      HEADER + 10 * es.length + offAt es idx := by
  unfold kvPos
  rw [nkeysOf_encode t es pad hn]
  cases Nat.eq_zero_or_pos idx with
  | inl h0 =>
    subst h0
    rw [show getOffSet (encodeNode t es pad) 0 = 0 from rfl, offAt_zero]
    unfold HEADER
    omega
  | inr hpos =>
    rw [getOffSet_encode t es pad idx hpos hidx hn hsz]
    unfold HEADER
    omega

theorem encode_drop_kv (t : Nat) (es : List Ent) (pad i : Nat)
    (hi : i < es.length) :
    (encodeNode t es pad).drop (HEADER + 10 * es.length + offAt es i) =
      kvBytes (es.getD i default) ++
        (kvsBytes (es.drop (i + 1)) ++ List.replicate pad 0) := by
  have hkvs : ∀ (es2 : List Ent) (j : Nat) (R : List Nat),
      j < es2.length → (kvsBytes es2 ++ R).drop (offAt es2 j) =
        kvBytes (es2.getD j default) ++ (kvsBytes (es2.drop (j + 1)) ++ R) := by
    intro es2
    induction es2 with
    | nil => intro j R hj; exact absurd hj (by simp)
    | cons e es2 ih =>
      intro j R hj
      cases j with
      | zero =>
        rw [offAt_zero, List.drop_zero,
          show kvsBytes (e :: es2) = kvBytes e ++ kvsBytes es2 from rfl,
          List.append_assoc]
        rfl
      | succ j =>
        rw [offAt_cons_succ,
          show kvsBytes (e :: es2) = kvBytes e ++ kvsBytes es2 from rfl,
          List.append_assoc,
          show entSize e + offAt es2 j =
            (kvBytes e).length + offAt es2 j by rw [kvBytes_length],
          List.drop_append, ih j R (by simpa using hj)]
        rfl
  unfold encodeNode HEADER
  simp only [List.append_assoc]
  rw [show 4 + 10 * es.length + offAt es i =
      (u16le t).length + ((u16le es.length).length +
        ((ptrBytes es).length + ((offBytes es).length + offAt es i))) by
        rw [u16le_length, u16le_length, ptrBytes_length, offBytes_length]
        omega,
    List.drop_append, List.drop_append, List.drop_append, List.drop_append]
  exact hkvs es i _ hi

theorem klen_encode (t : Nat) (es : List Ent) (pad i : Nat)
    (hi : i < es.length) (hn : es.length < 65536)
    (hsz : entsSize es < 65536)
    (hk : (es.getD i default).key.length < 65536) :
    readU16 (encodeNode t es pad) (kvPos (encodeNode t es pad) i) =
      (es.getD i default).key.length := by
  rw [kvPos_encode t es pad i (by omega) hn hsz, readU16_eq_drop_zero,
    encode_drop_kv t es pad i hi]
  rw [show kvBytes (es.getD i default) = u16le (es.getD i default).key.length
      ++ (u16le (es.getD i default).val.length ++
        ((es.getD i default).key ++ (es.getD i default).val)) from by
        simp [kvBytes]]
  rw [List.append_assoc]
  exact readU16_u16le _ _ hk

theorem vlen_encode (t : Nat) (es : List Ent) (pad i : Nat)
    (hi : i < es.length) (hn : es.length < 65536)
    (hsz : entsSize es < 65536)
    (hv : (es.getD i default).val.length < 65536) :
    readU16 (encodeNode t es pad) (kvPos (encodeNode t es pad) i + 2) =
      (es.getD i default).val.length := by
  rw [kvPos_encode t es pad i (by omega) hn hsz, ← readU16_drop,
    encode_drop_kv t es pad i hi]
  rw [show kvBytes (es.getD i default) = u16le (es.getD i default).key.length
      ++ (u16le (es.getD i default).val.length ++
        ((es.getD i default).key ++ (es.getD i default).val)) from by
        simp [kvBytes]]
  rw [List.append_assoc,
    show (2 : Nat) = (u16le (es.getD i default).key.length).length + 0 by
      rw [u16le_length],
    readU16_append_right]
  exact readU16_u16le _ _ hv

theorem getKey_encode (t : Nat) (es : List Ent) (pad i : Nat)
    (hi : i < es.length) (hn : es.length < 65536)
    (hsz : entsSize es < 65536)
    (hk : (es.getD i default).key.length < 65536) :
    getKey (encodeNode t es pad) i = (es.getD i default).key := by
  unfold getKey
  rw [klen_encode t es pad i hi hn hsz hk,
    kvPos_encode t es pad i (by omega) hn hsz,
    ← List.drop_drop, encode_drop_kv t es pad i hi]
  rw [show kvBytes (es.getD i default) ++
      (kvsBytes (es.drop (i + 1)) ++ List.replicate pad 0) =
      u16le (es.getD i default).key.length ++
      (u16le (es.getD i default).val.length ++
        ((es.getD i default).key ++ ((es.getD i default).val ++
          (kvsBytes (es.drop (i + 1)) ++ List.replicate pad 0)))) from by
        simp [kvBytes]]
  rw [show (4 : Nat) = (u16le (es.getD i default).key.length).length +
      ((u16le (es.getD i default).val.length).length + 0) by
        rw [u16le_length, u16le_length],
    List.drop_append, List.drop_append, List.drop_zero, List.take_left]

theorem getVal_encode (t : Nat) (es : List Ent) (pad i : Nat)
    (hi : i < es.length) (hn : es.length < 65536)
    (hsz : entsSize es < 65536)
    (hk : (es.getD i default).key.length < 65536)
    (hv : (es.getD i default).val.length < 65536) :
    getVal (encodeNode t es pad) i = (es.getD i default).val := by
  unfold getVal
  rw [klen_encode t es pad i hi hn hsz hk,
    vlen_encode t es pad i hi hn hsz hv,
    kvPos_encode t es pad i (by omega) hn hsz,
    show HEADER + 10 * es.length + offAt es i + 4 +
      (es.getD i default).key.length =
      (HEADER + 10 * es.length + offAt es i) +
        (4 + (es.getD i default).key.length) by omega,
    ← List.drop_drop, encode_drop_kv t es pad i hi]
  rw [show kvBytes (es.getD i default) ++
      (kvsBytes (es.drop (i + 1)) ++ List.replicate pad 0) =
      u16le (es.getD i default).key.length ++
      (u16le (es.getD i default).val.length ++
        ((es.getD i default).key ++ ((es.getD i default).val ++
          (kvsBytes (es.drop (i + 1)) ++ List.replicate pad 0)))) from by
        simp [kvBytes]]
  rw [show 4 + (es.getD i default).key.length =
      (u16le (es.getD i default).key.length).length +
      ((u16le (es.getD i default).val.length).length +
        ((es.getD i default).key.length + 0)) by
        rw [u16le_length, u16le_length]; omega,
    List.drop_append, List.drop_append, List.drop_append, List.drop_zero,
    List.take_left]

theorem nbytes_encode (t : Nat) (es : List Ent) (pad : Nat)
    (hn : es.length < 65536) (hsz : entsSize es < 65536) :
    nbytes (encodeNode t es pad) = rawSize es := by
  unfold nbytes rawSize
  rw [nkeysOf_encode t es pad hn,
    kvPos_encode t es pad es.length (by omega) hn hsz, offAt_length]

theorem pageGetMappedAux_shift (cs : List (List (List Nat))) :
    ∀ start ptr, start ≤ ptr →
      pageGetMappedAux cs start ptr = pageGetMappedAux cs 0 (ptr - start) := by
  induction cs with
  | nil => intro start ptr h; rfl
  | cons c cs ih =>
    intro start ptr h
    simp only [pageGetMappedAux]
    by_cases hc : ptr < start + c.length
    · rw [if_pos hc, if_pos (by omega)]
      simp
    · rw [if_neg hc, if_neg (by omega)]
      rw [ih (start + c.length) ptr (by omega),
        ih (0 + c.length) (ptr - start) (by omega)]
      congr 1
      omega

theorem chunkBase_zero (cs : List (List (List Nat))) : chunkBase cs 0 = 0 := by
  simp [chunkBase]

theorem chunkBase_cons (c : List (List Nat)) (cs : List (List (List Nat)))
    (j : Nat) : chunkBase (c :: cs) (j + 1) = c.length + chunkBase cs j := by
  simp [chunkBase, List.take_succ_cons]

theorem pageGetMapped_eq_walkSpec (cs : List (List (List Nat))) :
    ∀ ptr, pageGetMapped cs ptr = pageGetWalkSpec cs ptr := by
  induction cs with
  | nil => intro ptr; rfl
  | cons c cs ih =>
    intro ptr
    show pageGetMappedAux (c :: cs) 0 ptr = pageGetWalkSpec (c :: cs) ptr
    simp only [pageGetMappedAux]
    by_cases hc : ptr < c.length
    · rw [if_pos (by omega)]
      unfold pageGetWalkSpec
      rw [List.length_cons, List.range_succ_eq_map]
      rw [List.find?_cons_of_pos _ (by
        simp only [chunkBase_cons, chunkBase_zero, decide_eq_true_eq]
        omega)]
      simp [chunkBase_zero]
    · rw [if_neg (by omega)]
      rw [pageGetMappedAux_shift cs (0 + c.length) ptr (by omega)]
      have hmid : pageGetMappedAux cs 0 (ptr - (0 + c.length)) =
          pageGetWalkSpec cs (ptr - c.length) := by
        rw [show ptr - (0 + c.length) = ptr - c.length by omega]
        exact ih (ptr - c.length)
      rw [hmid]
      unfold pageGetWalkSpec
      rw [List.length_cons, List.range_succ_eq_map]
      rw [List.find?_cons_of_neg _ (by
        simp only [chunkBase_cons, chunkBase_zero, decide_eq_true_eq]
        omega)]
      rw [List.find?_map]
      have hpred : ∀ j : Nat,
          (decide (ptr < chunkBase (c :: cs) (j + 1 + 1))) =
          (decide (ptr - c.length < chunkBase cs (j + 1))) := by
        intro j
        have : chunkBase (c :: cs) (j + 1 + 1) =
            c.length + chunkBase cs (j + 1) := chunkBase_cons c cs (j + 1)
        rw [this]
        exact decide_eq_decide.mpr (by omega)
      rw [show ((fun j => decide (ptr < chunkBase (c :: cs) (j + 1))) ∘
          Nat.succ) = (fun j => decide (ptr - c.length < chunkBase cs (j + 1)))
        from funext fun j => hpred j]
      cases hf : (List.range cs.length).find?
          (fun j => decide (ptr - c.length < chunkBase cs (j + 1))) with
      | none => rfl
      | some j =>
        show (cs.getD j []).get? (ptr - c.length - chunkBase cs j) =
          ((c :: cs).getD (j + 1) []).get? (ptr - chunkBase (c :: cs) (j + 1))
        rw [show (c :: cs).getD (j + 1) [] = cs.getD j [] from rfl,
          chunkBase_cons]
        congr 1
        omega

/-- C9 counterexample: the claim, read as stated, says a staged entry
is returned only when its bytes are non-empty, with the mapped view as
the fallback in every other case.  At a page staged as deleted
(`nil`), `pageGet` panics instead of returning the mapped view. -/
theorem c9_counterexample :
    ¬ (∀ (u : List (Nat × Option (List Nat))) (cs : List (List (List Nat)))
        (ptr : Nat), pageGet (some u) cs ptr = pageGetClaimed u cs ptr) := by
  intro h
  have hx := h [(3, none)] [[[1], [2], [3], [4]]] 3
  rw [show pageGet (some [(3, none)]) [[[1], [2], [3], [4]]] 3 = none
    from rfl] at hx
  rw [show pageGetClaimed [(3, none)] [[[1], [2], [3], [4]]] 3 = some [4]
    from rfl] at hx
  exact Option.noConfusion hx

/-- C9 amended: `pageGet` returns the staged bytes whenever the page is
present in `updates` with non-nil bytes; a page staged as deleted (nil
bytes) is a fatal error (Go panic), not a fallback; for a page absent
from `updates` it returns the P-byte view of the mapped chunk covering
it, found by walking the chunks in order and subtracting the chunk's
page-offset base (`pageGetWalkSpec` is that walk in the claim's own
wording). -/
theorem c9_pageGet_dispatch (u : List (Nat × Option (List Nat)))
    (cs : List (List (List Nat))) (ptr : Nat) :
    (∀ p, u.lookup ptr = some (some p) → pageGet (some u) cs ptr = some p) ∧
      (u.lookup ptr = some none → pageGet (some u) cs ptr = none) ∧
      (u.lookup ptr = none →
        pageGet (some u) cs ptr = pageGetWalkSpec cs ptr) := by
  refine ⟨fun p hp => ?_, fun hp => ?_, fun hp => ?_⟩
  · simp [pageGet, hp]
  · simp [pageGet, hp]
  · simp [pageGet, hp, pageGetMapped_eq_walkSpec]

/-- Witness for `c9_pageGet_dispatch`: a staged page wins; an absent
page falls through to the claim-worded chunk walk. -/
theorem c9_pageGet_dispatch_witness :
    pageGet (some [(1, some [5])]) [[[9]]] 1 = some [5] ∧
      pageGet (some [(7, some [5])]) [[[9]]] 0 = pageGetWalkSpec [[[9]]] 0 := by
  exact ⟨(c9_pageGet_dispatch [(1, some [5])] [[[9]]] 1).1 [5] rfl,
    (c9_pageGet_dispatch [(7, some [5])] [[[9]]] 0).2.2 rfl⟩

theorem bget_bset_eq (l : List Nat) (i v : Nat) (h : i < l.length) :
    bget (bset l i v) i = v % 256 := by
  unfold bget bset
  rw [List.getD_eq_getElem _ _ (by simpa using h)]
  simp [List.getElem_set_self]

theorem bget_bset_ne (l : List Nat) (i j v : Nat) (h : ¬ i = j) :
    bget (bset l i v) j = bget l j := by
  unfold bget bset
  rw [List.getD_eq_getD_get?, List.getD_eq_getD_get?]
  rw [show (l.set i (v % 256)).get? j = l.get? j from by
    simp [List.getElem?_set_ne h]]

theorem bset_length (l : List Nat) (i v : Nat) :
    (bset l i v).length = l.length := by
  simp [bset]

theorem writeU16_length (l : List Nat) (p v : Nat) :
    (writeU16 l p v).length = l.length := by
  simp [writeU16, bset]

theorem setHeader_length (l : List Nat) (t k : Nat) :
    (setHeader l t k).length = l.length := by
  simp [setHeader, writeU16, bset]

theorem readU16_writeU16 (l : List Nat) (p v : Nat) (h : p + 1 < l.length) :
    readU16 (writeU16 l p v) p = v % 65536 := by
  unfold readU16 writeU16
  rw [bget_bset_ne _ _ _ _ (by omega), bget_bset_eq _ _ _ (by omega),
    bget_bset_eq _ _ _ (by rw [bset_length]; omega)]
  omega

theorem readU16_writeU16_ne (l : List Nat) (p q v : Nat)
    (h : p + 1 < q ∨ q + 1 < p) : readU16 (writeU16 l p v) q = readU16 l q := by
  unfold readU16 writeU16
  rw [bget_bset_ne _ _ _ _ (by omega), bget_bset_ne _ _ _ _ (by omega),
    bget_bset_ne _ _ _ _ (by omega), bget_bset_ne _ _ _ _ (by omega)]

theorem btype_setHeader (l : List Nat) (t k : Nat) (h : 3 < l.length) :
    btype (setHeader l t k) = t % 65536 := by
  unfold btype setHeader
  rw [readU16_writeU16_ne _ _ _ _ (by omega)]
  exact readU16_writeU16 l 0 t (by omega)

theorem nkeysOf_setHeader (l : List Nat) (t k : Nat) (h : 3 < l.length) :
    nkeysOf (setHeader l t k) = k % 65536 := by
  unfold nkeysOf setHeader
  exact readU16_writeU16 _ 2 k (by rw [writeU16_length]; omega)

theorem bget_setHeader_ge (l : List Nat) (t k j : Nat) (h : 3 < j) :
    bget (setHeader l t k) j = bget l j := by
  unfold setHeader writeU16
  rw [bget_bset_ne _ _ _ _ (by omega), bget_bset_ne _ _ _ _ (by omega),
    bget_bset_ne _ _ _ _ (by omega), bget_bset_ne _ _ _ _ (by omega)]

theorem bget_splice_lt (d : List Nat) :
    ∀ p s j, j < p → bget (splice d p s) j = bget d j := by
  induction d with
  | nil => intro p s j h; rfl
  | cons a d ih =>
    intro p s j h
    cases p with
    | zero => omega
    | succ p =>
      cases j with
      | zero => rfl
      | succ j =>
        show bget (a :: splice d p s) (j + 1) = bget (a :: d) (j + 1)
        rw [bget_cons_succ, bget_cons_succ]
        exact ih p s j (by omega)

theorem foldl_keep (l : List Nat) (x : List Nat) :
    List.foldl (fun acc (i2 : Nat) => acc) x l = x := by
  induction l generalizing x with
  | nil => rfl
  | cons a l ih => exact ih x

theorem u16sub_eq (a b : Nat) (hb : b ≤ a) (ha : a < 65536) :
    u16sub a b = a - b := by
  unfold u16sub
  omega

theorem offAt_succ_getD (es : List Ent) :
    ∀ i, i < es.length →
      offAt es (i + 1) = offAt es i + entSize (es.getD i default) := by
  induction es with
  | nil => intro i h; exact absurd h (by simp)
  | cons e es ih =>
    intro i h
    cases i with
    | zero =>
      rw [offAt_cons_succ, offAt_zero es, offAt_zero (e :: es),
        show (e :: es).getD 0 default = e from rfl]
      omega
    | succ i =>
      rw [offAt_cons_succ, offAt_cons_succ, ih i (by simpa using h),
        show (e :: es).getD (i + 1) default = es.getD i default from rfl]
      omega

theorem offAt_lower (es : List Ent) :
    ∀ j, j ≤ es.length → offAt es j + 4 * (es.length - j) ≤ entsSize es := by
  induction es with
  | nil => intro j h; simp_all [offAt, entsSize]
  | cons e es ih =>
    intro j h
    cases j with
    | zero =>
      have h0 := ih 0 (by omega)
      have h4 := entSize_ge e
      rw [offAt_zero] at h0 ⊢
      rw [entsSize_cons]
      simp only [List.length_cons]
      omega
    | succ j =>
      have hj := ih j (by simpa using h)
      have h4 := entSize_ge e
      rw [offAt_cons_succ, entsSize_cons]
      simp only [List.length_cons]
      omega

/-- `nodeAppendRange` under its two source bounds checks: the pointer
and offset loops leave the buffer unchanged (`setPtr`/`setOffSet` are
the identity), so the result is the header-set buffer with the KV byte
region copied in. -/
theorem nodeAppendRange_eq_some (nw old : List Nat) (dstNew srcOld n : Nat)
    (h1 : ¬ srcOld + n > nkeysOf old) (h2 : ¬ dstNew + n > nkeysOf nw) :
    nodeAppendRange nw old dstNew srcOld n =
      some (if n = 0 then nw else
        bcopy nw (kvPos nw dstNew) old (kvPos old srcOld)
          (kvPos old (srcOld + n) - kvPos old srcOld)) := by
  unfold nodeAppendRange
  rw [if_neg h1, if_neg h2]
  by_cases h0 : n = 0
  · rw [if_pos h0, if_pos h0]
  · rw [if_neg h0, if_neg h0]
    simp only [setPtr, setOffSet, foldl_keep]

theorem readU16_splice_lt (d : List Nat) (p : Nat) (s : List Nat) (q : Nat)
    (h : q + 1 < p) : readU16 (splice d p s) q = readU16 d q := by
  unfold readU16
  rw [bget_splice_lt d p s q (by omega), bget_splice_lt d p s (q + 1) (by omega)]

theorem readU16_setHeader_ge (l : List Nat) (t k q : Nat) (h : 3 < q) :
    readU16 (setHeader l t k) q = readU16 l q := by
  unfold readU16
  rw [bget_setHeader_ge _ _ _ _ (by omega), bget_setHeader_ge _ _ _ _ (by omega)]

theorem readU16_replicate_zero (n q : Nat) :
    readU16 (List.replicate n 0) q = 0 := by
  unfold readU16
  rw [bget_replicate, bget_replicate]
  split <;> split <;> rfl

theorem splice_length (d : List Nat) :
    ∀ p s, (splice d p s).length = d.length := by
  induction d with
  | nil => intro p s; rfl
  | cons a d ih =>
    intro p s
    cases p with
    | zero =>
      cases s with
      | nil => rfl
      | cons b s => simp [splice, ih 0 s]
    | succ p => simp [splice, ih p s]

theorem bget_take (l : List Nat) (n i : Nat) (h : i < n) :
    bget (l.take n) i = bget l i := by
  unfold bget
  rw [List.getD_eq_getD_get?, List.getD_eq_getD_get?]
  rw [show (l.take n).get? i = l.get? i from List.get?_take h]

theorem bget_splice_in (d : List Nat) :
    ∀ p s j, p ≤ j → j - p < s.length → j < d.length →
      bget (splice d p s) j = bget s (j - p) := by
  induction d with
  | nil => intro p s j h1 h2 h3; exact absurd h3 (by simp)
  | cons a d ih =>
    intro p s j h1 h2 h3
    cases p with
    | zero =>
      cases s with
      | nil => simp at h2
      | cons b s =>
        cases j with
        | zero => rfl
        | succ j =>
          show bget (b :: splice d 0 s) (j + 1) = bget (b :: s) (j + 1)
          rw [bget_cons_succ, bget_cons_succ]
          exact ih 0 s j (by omega) (by simpa using h2) (by simpa using h3)
    | succ p =>
      cases j with
      | zero => omega
      | succ j =>
        show bget (a :: splice d p s) (j + 1) = bget s (j + 1 - (p + 1))
        rw [bget_cons_succ,
          ih p s j (by omega) (by
            have : j - p = j + 1 - (p + 1) := by omega
            omega) (by simpa using h3),
          show j - p = j + 1 - (p + 1) by omega]

theorem readU16_splice_in (d : List Nat) (p : Nat) (s : List Nat) (q : Nat)
    (h1 : p ≤ q) (h2 : q + 1 - p < s.length) (h3 : q + 1 < d.length) :
    readU16 (splice d p s) q = readU16 s (q - p) := by
  unfold readU16
  rw [bget_splice_in d p s q h1 (by omega) (by omega),
    bget_splice_in d p s (q + 1) (by omega) (by omega) (by omega),
    show q + 1 - p = q - p + 1 by omega]

theorem readU16_take (l : List Nat) (n q : Nat) (h : q + 1 < n) :
    readU16 (l.take n) q = readU16 l q := by
  unfold readU16
  rw [bget_take _ _ _ (by omega), bget_take _ _ _ (by omega)]

theorem encodeNode_length (t : Nat) (es : List Ent) (pad : Nat) :
    (encodeNode t es pad).length = rawSize es + pad := by
  unfold encodeNode rawSize HEADER
  simp [u16le_length, ptrBytes_length, offBytes_length, kvsBytes_length]
  omega

/-- The split-index loop of `splitSingleNode` on an encoded node: it
always breaks at some slot before the end, and at the break the bytes
after the chosen slot fit below `BTREE_PAGE_SIZE - 4`. -/
theorem splitIdxAux_breaks (t : Nat) (es : List Ent) (pad : Nat)
    (hwfe : ∀ e ∈ es, wfEnt e) (hfit : rawSize es ≤ 2 * BTREE_PAGE_SIZE) :
    ∀ fuel i, i < es.length → es.length ≤ fuel + i →
      splitIdxAux (encodeNode t es pad) (rawSize es) fuel i
          (10 * i + offAt es i) < es.length ∧
        rawSize es ≤ (BTREE_PAGE_SIZE - 4) +
          (10 * (splitIdxAux (encodeNode t es pad) (rawSize es) fuel i
              (10 * i + offAt es i) + 1) +
            offAt es (splitIdxAux (encodeNode t es pad) (rawSize es) fuel i
              (10 * i + offAt es i) + 1)) := by
  have hn65 : es.length < 65536 := by
    unfold rawSize HEADER BTREE_PAGE_SIZE at hfit; omega
  have hsz65 : entsSize es < 65536 := by
    unfold rawSize HEADER BTREE_PAGE_SIZE at hfit; omega
  have hraw65 : rawSize es < 65536 := by
    unfold rawSize HEADER BTREE_PAGE_SIZE at hfit
    unfold rawSize HEADER
    omega
  intro fuel
  induction fuel with
  | zero => intro i h1 h2; omega
  | succ fuel ih =>
    intro i h1 h2
    have hnk : nkeysOf (encodeNode t es pad) = es.length :=
      nkeysOf_encode _ _ _ hn65
    have hwfi := hwfe (es.getD i default) (by
      rw [List.getD_eq_getElem _ _ (by omega)]
      exact List.getElem_mem _)
    have hkl : readU16 (encodeNode t es pad)
        (kvPos (encodeNode t es pad) i) = (es.getD i default).key.length :=
      klen_encode t es pad i h1 hn65 hsz65 (by
        have := hwfi.1; unfold BTREE_MAX_KEY_SIZE at this; omega)
    have hvl : readU16 (encodeNode t es pad)
        (kvPos (encodeNode t es pad) i + 2) = (es.getD i default).val.length :=
      vlen_encode t es pad i h1 hn65 hsz65 (by
        have := hwfi.2.1; unfold BTREE_MAX_VAL_SIZE at this; omega)
    have hcur : 10 * (i + 1) + offAt es (i + 1) ≤ rawSize es := by
      have hle := offAt_le es (i + 1)
      unfold rawSize HEADER
      omega
    unfold splitIdxAux
    simp only [hnk, hkl, hvl]
    rw [if_pos h1]
    have hc2 : 10 * i + offAt es i + 8 + 2 + 2 + 2 +
        (es.getD i default).key.length + (es.getD i default).val.length =
        10 * (i + 1) + offAt es (i + 1) := by
      rw [offAt_succ_getD es i h1]
      unfold entSize
      omega
    rw [hc2]
    by_cases hbr : u16sub (rawSize es) (10 * (i + 1) + offAt es (i + 1)) ≤
        BTREE_PAGE_SIZE - 4
    · rw [if_pos hbr]
      refine ⟨h1, ?_⟩
      rw [u16sub_eq _ _ hcur hraw65] at hbr
      unfold BTREE_PAGE_SIZE at hbr ⊢
      omega
    · rw [if_neg hbr]
      have hnext : i + 1 < es.length := by
        by_contra hge
        apply hbr
        have hieq : i + 1 = es.length := by omega
        rw [hieq, offAt_length, u16sub_eq _ _ (by unfold rawSize HEADER; omega)
          hraw65]
        unfold rawSize HEADER BTREE_PAGE_SIZE
        omega
      exact ih (i + 1) hnext (by omega)

/-- C5 amended: on every well-formed over-full encoded node (in the
two-page insert buffer), `splitSingleNode` succeeds and the right node
satisfies `right.nbytes() ≤ BTREE_PAGE_SIZE`. -/
theorem c5_split_right_fits (t : Nat) (es : List Ent)
    (hwfe : ∀ e ∈ es, wfEnt e)
    (hbig : BTREE_PAGE_SIZE < rawSize es)
    (hfit : rawSize es ≤ 2 * BTREE_PAGE_SIZE) :
    ∃ lf rt, splitSingleNode (List.replicate (2 * BTREE_PAGE_SIZE) 0)
        (List.replicate BTREE_PAGE_SIZE 0)
        (encodeNode t es (2 * BTREE_PAGE_SIZE - rawSize es)) =
        some (lf, rt) ∧ nbytes rt ≤ BTREE_PAGE_SIZE := by
  have hn1 : 1 ≤ es.length := by
    rcases es with _ | ⟨e, es⟩
    · exact absurd hbig (by decide)
    · simp
  have hn65 : es.length < 65536 := by
    unfold rawSize HEADER BTREE_PAGE_SIZE at hfit; omega
  have hsz65 : entsSize es < 65536 := by
    unfold rawSize HEADER BTREE_PAGE_SIZE at hfit; omega
  have hnb : nbytes (encodeNode t es (2 * BTREE_PAGE_SIZE - rawSize es)) =
      rawSize es := nbytes_encode _ _ _ hn65 hsz65
  have hnk : nkeysOf (encodeNode t es (2 * BTREE_PAGE_SIZE - rawSize es)) =
      es.length := nkeysOf_encode _ _ _ hn65
  obtain ⟨hidxlt, hbound⟩ := splitIdxAux_breaks t es
    (2 * BTREE_PAGE_SIZE - rawSize es) hwfe hfit es.length 0 (by omega)
    (by omega)
  rw [show 10 * 0 + offAt es 0 = 0 by rw [offAt_zero]] at hidxlt hbound
  set old := encodeNode t es (2 * BTREE_PAGE_SIZE - rawSize es) with holddef
  set idx := splitIdxAux old (rawSize es) es.length 0 0 with hidxdef
  have hrk1 : 1 ≤ es.length - idx := by omega
  have hrk65 : es.length - idx < 65536 := by omega
  have hrkfits : HEADER + 10 * (es.length - idx) ≤ BTREE_PAGE_SIZE := by
    have hlow := offAt_lower es (idx + 1) (by omega)
    unfold rawSize HEADER BTREE_PAGE_SIZE at hbound hbig hfit
    unfold HEADER BTREE_PAGE_SIZE
    omega
  have hnkl : nkeysOf (setHeader (List.replicate (2 * BTREE_PAGE_SIZE) 0)
      (btype old) idx) = idx := by
    rw [nkeysOf_setHeader _ _ _ (by
      rw [List.length_replicate]; unfold BTREE_PAGE_SIZE; omega)]
    omega
  have hnkr : nkeysOf (setHeader (List.replicate BTREE_PAGE_SIZE 0)
      (btype old) (es.length - idx)) = es.length - idx := by
    rw [nkeysOf_setHeader _ _ _ (by
      rw [List.length_replicate]; unfold BTREE_PAGE_SIZE; omega)]
    omega
  unfold splitSingleNode
  simp only [hnb, hnk, ← hidxdef]
  rw [nodeAppendRange_eq_some _ _ _ _ _ (by rw [hnk]; omega)
      (by rw [hnkl]; omega),
    nodeAppendRange_eq_some _ _ _ _ _ (by rw [hnk]; omega)
      (by rw [hnkr]; omega)]
  refine ⟨_, _, rfl, ?_⟩
  rw [if_neg (by omega)]
  set rtHdr := setHeader (List.replicate BTREE_PAGE_SIZE 0) (btype old)
    (es.length - idx) with hrthdr
  set rt := bcopy rtHdr (kvPos rtHdr 0) old (kvPos old idx)
    (kvPos old (idx + (es.length - idx)) - kvPos old idx) with hrtdef
  have hdpos : kvPos rtHdr 0 = HEADER + 10 * (es.length - idx) := by
    unfold kvPos
    rw [hnkr, show getOffSet rtHdr 0 = 0 from rfl]
    unfold HEADER
    omega
  have hnkrt : nkeysOf rt = es.length - idx := by
    rw [hrtdef]
    unfold nkeysOf bcopy
    rw [readU16_splice_lt _ _ _ _ (by rw [hdpos]; unfold HEADER; omega)]
    exact hnkr
  have hoff : getOffSet rt (es.length - idx) = 0 := by
    unfold getOffSet offsetPos
    rw [if_neg (by omega), hnkrt, hrtdef]
    unfold bcopy
    rw [readU16_splice_lt _ _ _ _ (by rw [hdpos]; unfold HEADER; omega),
      hrthdr, readU16_setHeader_ge _ _ _ _ (by unfold HEADER; omega),
      readU16_replicate_zero]
  unfold nbytes kvPos
  rw [hnkrt, hoff]
  unfold HEADER at hrkfits ⊢
  omega

theorem c5Ents_entsSize : entsSize c5Ents = 8008 := by
  rw [show c5Ents = (⟨0, List.replicate 1000 1, List.replicate 3000 2⟩ : Ent) ::
      (⟨0, List.replicate 1000 3, List.replicate 3000 4⟩ : Ent) :: [] from rfl,
    entsSize_cons, entsSize_cons, entsSize_nil]
  unfold entSize
  simp only [List.length_replicate]

theorem c5Ents_rawSize : rawSize c5Ents = 8032 := by
  unfold rawSize HEADER
  rw [c5Ents_entsSize, show c5Ents.length = 2 from rfl]

theorem c5Old_nbytes : nbytes c5Old = 8032 := by
  unfold c5Old
  rw [nbytes_encode _ _ _ (by rw [show c5Ents.length = 2 from rfl]; omega)
    (by rw [c5Ents_entsSize]; omega), c5Ents_rawSize]

theorem c5Old_nkeys : nkeysOf c5Old = 2 := by
  unfold c5Old
  rw [nkeysOf_encode _ _ _ (by rw [show c5Ents.length = 2 from rfl]; omega)]
  rfl

theorem c5Old_klen0 : readU16 c5Old (kvPos c5Old 0) = 1000 := by
  unfold c5Old
  rw [klen_encode BNODE_LEAF c5Ents _ 0 (by rw [show c5Ents.length = 2 from rfl]; omega)
    (by rw [show c5Ents.length = 2 from rfl]; omega)
    (by rw [c5Ents_entsSize]; omega)
    (by rw [show (c5Ents.getD 0 default).key = List.replicate 1000 1 from rfl,
      List.length_replicate]; omega)]
  rw [show (c5Ents.getD 0 default).key = List.replicate 1000 1 from rfl,
    List.length_replicate]

theorem c5Old_vlen0 : readU16 c5Old (kvPos c5Old 0 + 2) = 3000 := by
  unfold c5Old
  rw [vlen_encode BNODE_LEAF c5Ents _ 0 (by rw [show c5Ents.length = 2 from rfl]; omega)
    (by rw [show c5Ents.length = 2 from rfl]; omega)
    (by rw [c5Ents_entsSize]; omega)
    (by rw [show (c5Ents.getD 0 default).val = List.replicate 3000 2 from rfl,
      List.length_replicate]; omega)]
  rw [show (c5Ents.getD 0 default).val = List.replicate 3000 2 from rfl,
    List.length_replicate]

theorem c5Old_kvPos0 : kvPos c5Old 0 = 24 := by
  unfold c5Old
  rw [kvPos_encode BNODE_LEAF c5Ents _ 0 (by omega)
    (by rw [show c5Ents.length = 2 from rfl]; omega)
    (by rw [c5Ents_entsSize]; omega), offAt_zero,
    show c5Ents.length = 2 from rfl]
  unfold HEADER
  omega

theorem c5Old_kvPos2 : kvPos c5Old 2 = 8032 := by
  unfold c5Old
  rw [kvPos_encode BNODE_LEAF c5Ents _ 2
    (by rw [show c5Ents.length = 2 from rfl])
    (by rw [show c5Ents.length = 2 from rfl]; omega)
    (by rw [c5Ents_entsSize]; omega),
    show (2 : Nat) = c5Ents.length from rfl, offAt_length, c5Ents_entsSize,
    show c5Ents.length = 2 from rfl]
  unfold HEADER
  omega

theorem c5Old_getKey0 : getKey c5Old 0 = List.replicate 1000 1 := by
  unfold c5Old
  rw [getKey_encode BNODE_LEAF c5Ents _ 0 (by rw [show c5Ents.length = 2 from rfl]; omega)
    (by rw [show c5Ents.length = 2 from rfl]; omega)
    (by rw [c5Ents_entsSize]; omega)
    (by rw [show (c5Ents.getD 0 default).key = List.replicate 1000 1 from rfl,
      List.length_replicate]; omega)]
  rfl

theorem c5Old_getKey1 : getKey c5Old 1 = List.replicate 1000 3 := by
  unfold c5Old
  rw [getKey_encode BNODE_LEAF c5Ents _ 1 (by rw [show c5Ents.length = 2 from rfl]; omega)
    (by rw [show c5Ents.length = 2 from rfl]; omega)
    (by rw [c5Ents_entsSize]; omega)
    (by rw [show (c5Ents.getD 1 default).key = List.replicate 1000 3 from rfl,
      List.length_replicate]; omega)]
  rfl

theorem c5Old_length : c5Old.length = 8192 := by
  unfold c5Old
  rw [encodeNode_length, c5Ents_rawSize]
  unfold BTREE_PAGE_SIZE
  omega

theorem c5_splitIdx : splitIdxAux c5Old 8032 2 0 0 = 0 := by
  show splitIdxAux c5Old 8032 (1 + 1) 0 0 = 0
  unfold splitIdxAux
  simp only [c5Old_nkeys, c5Old_klen0, c5Old_vlen0]
  rw [if_pos (by omega), if_pos (by decide)]

theorem c5Old_getKey0_byte : bget c5Old 28 = 1 := by
  have h : (c5Old.drop 28).take 1000 = List.replicate 1000 1 := by
    have h0 := c5Old_getKey0
    unfold getKey at h0
    rw [c5Old_klen0, c5Old_kvPos0] at h0
    exact h0
  have h2 : bget ((c5Old.drop 28).take 1000) 0 =
      bget (List.replicate 1000 1) 0 := by rw [h]
  rw [bget_take (c5Old.drop 28) 1000 0 (by omega), bget_drop c5Old 28 0,
    bget_replicate 1000 1 0, if_pos (by omega)] at h2
  exact h2

theorem c5RtHdr_length : c5RtHdr.length = 4096 := by
  unfold c5RtHdr
  rw [setHeader_length, List.length_replicate]
  rfl

theorem c5RtHdr_nkeys : nkeysOf c5RtHdr = 2 := by
  unfold c5RtHdr
  rw [nkeysOf_setHeader _ _ _ (by
    rw [List.length_replicate]; unfold BTREE_PAGE_SIZE; omega)]

theorem c5RtHdr_kvPos0 : kvPos c5RtHdr 0 = 24 := by
  unfold kvPos
  rw [c5RtHdr_nkeys, show getOffSet c5RtHdr 0 = 0 from rfl]
  rfl

theorem c5Rt_nkeys : nkeysOf c5Rt = 2 := by
  unfold c5Rt bcopy nkeysOf
  rw [readU16_splice_lt c5RtHdr 24 ((c5Old.drop 24).take 8008) 2 (by omega)]
  exact c5RtHdr_nkeys

theorem c5Rt_off1 : getOffSet c5Rt 1 = 0 := by
  unfold getOffSet
  rw [if_neg (by omega)]
  unfold offsetPos
  rw [c5Rt_nkeys, show HEADER + 8 * 2 + 2 * (1 - 1) = 20 from rfl]
  unfold c5Rt bcopy
  rw [readU16_splice_lt c5RtHdr 24 ((c5Old.drop 24).take 8008) 20 (by omega)]
  unfold c5RtHdr
  rw [readU16_setHeader_ge _ _ _ 20 (by omega), readU16_replicate_zero]

theorem c5Rt_kvPos1 : kvPos c5Rt 1 = 24 := by
  unfold kvPos
  rw [c5Rt_nkeys, c5Rt_off1]
  rfl

theorem c5Rt_klen1 : readU16 c5Rt 24 = 1000 := by
  unfold c5Rt bcopy
  rw [readU16_splice_in c5RtHdr 24 ((c5Old.drop 24).take 8008) 24 (by omega)
    (by rw [List.length_take, List.length_drop, c5Old_length]; omega)
    (by rw [c5RtHdr_length]; omega)]
  rw [show (24 : Nat) - 24 = 0 from rfl,
    readU16_take (c5Old.drop 24) 8008 0 (by omega), readU16_drop c5Old 24 0]
  have h := c5Old_klen0
  rw [c5Old_kvPos0] at h
  exact h

theorem c5Rt_byte28 : bget c5Rt 28 = 1 := by
  unfold c5Rt bcopy
  rw [bget_splice_in c5RtHdr 24 ((c5Old.drop 24).take 8008) 28 (by omega)
    (by rw [List.length_take, List.length_drop, c5Old_length]; omega)
    (by rw [c5RtHdr_length]; omega)]
  rw [show (28 : Nat) - 24 = 4 from rfl,
    bget_take (c5Old.drop 24) 8008 4 (by omega), bget_drop c5Old 24 4]
  exact c5Old_getKey0_byte

theorem c5Rt_key1_byte : bget (getKey c5Rt 1) 0 = 1 := by
  unfold getKey
  rw [c5Rt_kvPos1, c5Rt_klen1,
    bget_take (c5Rt.drop (24 + 4)) 1000 0 (by omega),
    bget_drop c5Rt (24 + 4) 0]
  exact c5Rt_byte28

/-- Witness for `c5_split_right_fits`: the two-maximum-entry node
(8032 raw bytes). -/
theorem c5_split_right_fits_witness :
    ∃ lf rt, splitSingleNode (List.replicate (2 * BTREE_PAGE_SIZE) 0)
        (List.replicate BTREE_PAGE_SIZE 0)
        (encodeNode BNODE_LEAF c5Ents (2 * BTREE_PAGE_SIZE - rawSize c5Ents)) =
        some (lf, rt) ∧ nbytes rt ≤ BTREE_PAGE_SIZE := by
  refine c5_split_right_fits BNODE_LEAF c5Ents ?_ ?_ ?_
  · intro e he
    rw [show c5Ents =
        (⟨0, List.replicate 1000 1, List.replicate 3000 2⟩ : Ent) ::
        (⟨0, List.replicate 1000 3, List.replicate 3000 4⟩ : Ent) :: []
      from rfl] at he
    rcases List.mem_cons.mp he with rfl | he2
    · refine ⟨?_, ?_, ?_, ?_, ?_⟩
      · show (List.replicate 1000 1).length ≤ BTREE_MAX_KEY_SIZE
        rw [List.length_replicate]; unfold BTREE_MAX_KEY_SIZE; omega
      · show (List.replicate 3000 2).length ≤ BTREE_MAX_VAL_SIZE
        rw [List.length_replicate]; unfold BTREE_MAX_VAL_SIZE; omega
      · intro b hb; rw [List.eq_of_mem_replicate hb]; omega
      · intro b hb; rw [List.eq_of_mem_replicate hb]; omega
      · show (0 : Nat) < 2 ^ 64
        positivity
    rcases List.mem_cons.mp he2 with rfl | he3
    · refine ⟨?_, ?_, ?_, ?_, ?_⟩
      · show (List.replicate 1000 3).length ≤ BTREE_MAX_KEY_SIZE
        rw [List.length_replicate]; unfold BTREE_MAX_KEY_SIZE; omega
      · show (List.replicate 3000 4).length ≤ BTREE_MAX_VAL_SIZE
        rw [List.length_replicate]; unfold BTREE_MAX_VAL_SIZE; omega
      · intro b hb; rw [List.eq_of_mem_replicate hb]; omega
      · intro b hb; rw [List.eq_of_mem_replicate hb]; omega
      · show (0 : Nat) < 2 ^ 64
        positivity
    · exact absurd he3 (List.not_mem_nil e)
  · unfold BTREE_PAGE_SIZE
    rw [c5Ents_rawSize]
    omega
  · unfold BTREE_PAGE_SIZE
    rw [c5Ents_rawSize]
    omega

/-- C5 counterexample: on the two-maximum-entry leaf (8032 raw bytes,
split index 0), `splitSingleNode` succeeds but the right node does not
reproduce the claimed entries: `setOffSet` never writes, so the right
node's offset array is all zero, `kvPos rt 1 = kvPos rt 0` and
`getKey rt 1` re-reads entry 0's key bytes (first byte 1) instead of
entry 1's key (first byte 3). -/
theorem c5_counterexample :
    BTREE_PAGE_SIZE < nbytes c5Old ∧ ¬ claimC5At c5Old := by
  refine ⟨by rw [c5Old_nbytes]; unfold BTREE_PAGE_SIZE; omega, ?_⟩
  rintro ⟨lf, rt, hsplit, -, -, hall⟩
  unfold splitSingleNode at hsplit
  simp only [c5Old_nbytes, c5Old_nkeys, c5_splitIdx, Nat.sub_zero] at hsplit
  have ha1 : nodeAppendRange
      (setHeader (List.replicate (2 * BTREE_PAGE_SIZE) 0) (btype c5Old) 0)
      c5Old 0 0 0 =
      some (setHeader (List.replicate (2 * BTREE_PAGE_SIZE) 0)
        (btype c5Old) 0) := by
    rw [nodeAppendRange_eq_some _ _ _ _ _ (by rw [c5Old_nkeys]; omega)
      (by omega), if_pos rfl]
  have ha2 : nodeAppendRange c5RtHdr c5Old 0 0 2 = some c5Rt := by
    rw [nodeAppendRange_eq_some c5RtHdr c5Old 0 0 2
      (by rw [c5Old_nkeys]; omega) (by rw [c5RtHdr_nkeys]; omega),
      if_neg (show ¬ (2 : Nat) = 0 by omega),
      c5RtHdr_kvPos0, c5Old_kvPos0, show (0 : Nat) + 2 = 2 from rfl,
      c5Old_kvPos2]
    rfl
  rw [show setHeader (List.replicate BTREE_PAGE_SIZE 0) (btype c5Old) 2 =
    c5RtHdr from rfl] at hsplit
  simp only [ha1, ha2, Option.bind_eq_bind, Option.some_bind] at hsplit
  injection hsplit with hpair
  injection hpair with hlf hrt
  subst hrt
  have hj := (hall 1 (by rw [c5Rt_nkeys]; omega)).1
  rw [c5Old_nbytes, c5Old_nkeys, c5_splitIdx,
    show (0 : Nat) + 1 = 1 from rfl, c5Old_getKey1] at hj
  have hb : bget (getKey c5Rt 1) 0 = bget (List.replicate 1000 3) 0 := by
    rw [hj]
  rw [c5Rt_key1_byte, bget_replicate 1000 3 0, if_pos (by omega)] at hb
  omega

theorem nodeLookupLEAux_lt (node key : List Nat) :
    ∀ fuel i found, found < nkeysOf node →
      nodeLookupLEAux node key fuel i found < nkeysOf node := by
  intro fuel
  induction fuel with
  | zero => intro i found h; exact h
  | succ fuel ih =>
    intro i found h
    unfold nodeLookupLEAux
    by_cases hi : i < nkeysOf node
    · rw [if_pos hi]
      dsimp only
      by_cases hc : (0 : Int) ≤ cmpBytes (getKey node i) key
      · rw [if_pos hc]
        split
        · exact hi
        · exact h
      · rw [if_neg hc]
        apply ih
        split
        · exact hi
        · exact h
    · rw [if_neg hi]
      exact h

theorem nodeLookupLE_lt (node key : List Nat) (h : 0 < nkeysOf node) :
    nodeLookupLE node key < nkeysOf node :=
  nodeLookupLEAux_lt node key (nkeysOf node) 1 0 h

theorem treeKeysGo_succ (pages : List (Nat × List Nat)) (fuel ptr : Nat)
    (nd : List Nat) (h : pages.lookup ptr = some nd) :
    treeKeysGo pages (fuel + 1) ptr =
      if btype nd = BNODE_LEAF then (List.range (nkeysOf nd)).map (getKey nd)
      else ((List.range (nkeysOf nd)).map
        (fun i => treeKeysGo pages fuel (getPtr nd i))).flatten := by
  conv_lhs => rw [treeKeysGo]
  rw [h]

/-- Core of C10: descending `treeDelete` on a well-formed tree that
does not contain `key` returns the zero node and leaves the state
(hence the callback logs) untouched. -/
theorem treeDelete_miss (fuel : Nat) :
    ∀ (s : LogStore) (ptr : Nat) (nd key : List Nat),
      wfTree s.pages fuel ptr → s.pages.lookup ptr = some nd →
      key ∉ treeKeysGo s.pages fuel ptr →
      treeDeleteGo logCB fuel s nd key = some (s, []) := by
  induction fuel with
  | zero => intro s ptr nd key hwf; exact absurd hwf (by simp [wfTree])
  | succ fuel ih =>
    intro s ptr nd key hwf hlook hmiss
    obtain ⟨t, es, hl2, hraw, hn1, hwfe, hbranch⟩ := hwf
    rw [hlook] at hl2
    obtain rfl := Option.some.inj hl2
    have hn65 : es.length < 65536 := by
      unfold rawSize HEADER at hraw; unfold BTREE_PAGE_SIZE at hraw; omega
    have hsz65 : entsSize es < 65536 := by
      unfold rawSize HEADER at hraw; unfold BTREE_PAGE_SIZE at hraw; omega
    have ht65 : t < 65536 := by
      rcases hbranch with h | ⟨h, _⟩ <;> (subst h; decide)
    have hbt : btype (encodeNode t es (BTREE_PAGE_SIZE - rawSize es)) = t :=
      btype_encode _ _ _ ht65
    have hnk : nkeysOf (encodeNode t es (BTREE_PAGE_SIZE - rawSize es)) =
        es.length := nkeysOf_encode _ _ _ hn65
    have hidx : nodeLookupLE (encodeNode t es (BTREE_PAGE_SIZE - rawSize es))
        key < es.length := by
      rw [← hnk]; exact nodeLookupLE_lt _ _ (by rw [hnk]; omega)
    rcases hbranch with hleaf | ⟨hnode, hkids⟩
    · subst hleaf
      have hkeymem : getKey (encodeNode BNODE_LEAF es
          (BTREE_PAGE_SIZE - rawSize es))
          (nodeLookupLE (encodeNode BNODE_LEAF es
            (BTREE_PAGE_SIZE - rawSize es)) key) ∈
          treeKeysGo s.pages (fuel + 1) ptr := by
        rw [treeKeysGo_succ s.pages fuel ptr _ hlook, if_pos hbt, hnk]
        exact List.mem_map_of_mem _ (List.mem_range.mpr hidx)
      have hne : ¬ (key = getKey (encodeNode BNODE_LEAF es
          (BTREE_PAGE_SIZE - rawSize es))
          (nodeLookupLE (encodeNode BNODE_LEAF es
            (BTREE_PAGE_SIZE - rawSize es)) key)) := by
        intro heq
        exact hmiss (heq ▸ hkeymem)
      unfold treeDeleteGo
      rw [if_pos hbt]
      rw [if_pos (by simp [bytesEq, hne])]
    · subst hnode
      have hbtleaf : ¬ (btype (encodeNode BNODE_NODE es
          (BTREE_PAGE_SIZE - rawSize es)) = BNODE_LEAF) := by
        rw [hbt]; decide
      set nd := encodeNode BNODE_NODE es (BTREE_PAGE_SIZE - rawSize es)
        with hnd
      set idx := nodeLookupLE nd key with hidxdef
      have hgp : getPtr nd idx = (es.getD idx default).ptr :=
        getPtr_encode _ _ _ _ hidx hn65
          (fun e he => ((hwfe e he).2.2.2.2))
      have hmem : es.getD idx default ∈ es := by
        rw [List.getD_eq_getElem _ _ (by omega)]
        exact List.getElem_mem _
      have hwfc : wfTree s.pages fuel (es.getD idx default).ptr :=
        hkids _ hmem
      obtain ⟨tc, esc, hlc, _, _, _, _⟩ : ∃ tc esc,
          s.pages.lookup (es.getD idx default).ptr =
            some (encodeNode tc esc (BTREE_PAGE_SIZE - rawSize esc)) ∧
          rawSize esc ≤ BTREE_PAGE_SIZE ∧ 1 ≤ esc.length ∧
          (∀ e ∈ esc, wfEnt e) ∧
          (tc = BNODE_LEAF ∨ (tc = BNODE_NODE ∧
            ∀ e ∈ esc, wfTree s.pages (fuel - 1) e.ptr)) := by
        cases fuel with
        | zero => exact absurd hwfc (by simp [wfTree])
        | succ fuel2 => exact hwfc
      have hmissc : key ∉ treeKeysGo s.pages fuel (es.getD idx default).ptr := by
        intro hin
        apply hmiss
        rw [treeKeysGo_succ s.pages fuel ptr _ hlook,
          if_neg (by rw [hbt]; decide), hnk]
        apply List.mem_flatten.mpr
        refine ⟨treeKeysGo s.pages fuel (getPtr nd idx), ?_, ?_⟩
        · exact List.mem_map_of_mem _ (List.mem_range.mpr hidx)
        · rw [hgp]; exact hin
      have hrec : treeDeleteGo logCB fuel s
          (encodeNode tc esc (BTREE_PAGE_SIZE - rawSize esc)) key =
          some (s, []) := ih s (es.getD idx default).ptr _ key hwfc hlc hmissc
      unfold treeDeleteGo
      rw [if_neg hbtleaf, if_pos hbt, ← hidxdef]
      have hget : logCB.get s (getPtr nd idx) =
          some (encodeNode tc esc (BTREE_PAGE_SIZE - rawSize esc)) := by
        rw [hgp]; exact hlc
      simp only [hget, hrec, Option.bind_eq_bind, Option.some_bind]
      rfl

/-- C10: implicit frame property of delete-miss.  For a well-formed
key absent from a well-formed tree, `BTree.Delete` returns `false`,
the root is unchanged, and the state — including the logs of every
`new` and `del` callback — is exactly the input state: nothing is
staged, allocated, or marked freed by the tree walk. -/
theorem c10_delete_miss_frame (fuel : Nat) (s : LogStore) (root : Nat)
    (key : List Nat) (hwf : wfTree s.pages fuel root)
    (hne : ¬ key.length = 0) (hlen : key.length ≤ BTREE_MAX_KEY_SIZE)
    (hmiss : key ∉ treeKeysGo s.pages fuel root) :
    btreeDelete logCB fuel s root key = some (s, false, root) := by
  unfold btreeDelete
  rw [if_neg hne, if_neg (by unfold BTREE_MAX_KEY_SIZE at hlen ⊢; omega)]
  by_cases hr : root = 0
  · rw [if_pos hr]
  · rw [if_neg hr]
    cases fuel with
    | zero => exact absurd hwf (by simp [wfTree])
    | succ fuel =>
      obtain ⟨t, es, hl, hrest⟩ := hwf
      have hget : logCB.get s root =
          some (encodeNode t es (BTREE_PAGE_SIZE - rawSize es)) := hl
      have hrec := treeDelete_miss (fuel + 1) s root _ key
        ⟨t, es, hl, hrest⟩ hl hmiss
      simp only [hget, hrec, Option.bind_eq_bind, Option.some_bind]
      rfl

/-- Witness for `c10_delete_miss_frame`: the concrete one-leaf tree
with keys `[]` and `[2]`, probed with the absent key `[7]`. -/
theorem c10_delete_miss_frame_witness :
    btreeDelete logCB 1 c10LS 1 [7] = some (c10LS, false, 1) := by
  refine c10_delete_miss_frame 1 c10LS 1 [7] ?_ (by decide) (by decide)
    (by decide)
  show wfTree c10LS.pages 1 1
  refine ⟨BNODE_LEAF, c10Ents, rfl, by decide, by decide, by decide,
    Or.inl rfl⟩

end SimpleDB
